import Mathlib

/-!
Verification of the racingdigest core pipeline (fetch orchestration,
caching, dedup-merge, scoring) against its natural-language specification.

Python strings are modelled as `List Char`, Python floats as `ℚ` (every
numeric constant appearing in the verified properties is exactly
representable), Python `dict`s as insertion-ordered association lists,
and `datetime` values as a plain record of calendar fields.  Fallible
operations return `Option`.  Namespace `CD` embeds `createDigest.py`,
namespace `RS` embeds `racing_scanner.py`.
-/

/-- Python `str` is modelled as a list of characters. -/
abbrev Str := List Char

/-- ASCII decimal digit test (`\d` of the regexes used by the sources;
the sources only ever feed ASCII text through them). -/
def isDigitC (c : Char) : Bool := '0' ≤ c && c ≤ '9'

/-- ASCII whitespace, the characters Python's `str.strip` and `\s` remove
on the ASCII inputs this pipeline handles. -/
def isSpaceC (c : Char) : Bool :=
  c = ' ' || c = '\t' || c = '\n' || c = '\x0d' || c = '\x0b' || c = '\x0c'

/-- Python word character (`\w`, ASCII range). -/
def isWordC (c : Char) : Bool := c.isAlpha || isDigitC c || c = '_'

/-- ASCII upper-casing, as Python `str.upper` acts on the ASCII odds and
venue texts handled here. -/
def toUpperC (c : Char) : Char := c.toUpper

/-- ASCII lower-casing (Python `str.lower`). -/
def toLowerC (c : Char) : Char := c.toLower

/-- Python `str.strip()`: drop whitespace from both ends. -/
def stripWS (s : Str) : Str :=
  ((s.dropWhile isSpaceC).reverse.dropWhile isSpaceC).reverse

/-- Numeric value of a list of ASCII digits (most significant first). -/
def digitsToNat (s : Str) : Nat :=
  s.foldl (fun acc c => 10 * acc + (c.toNat - 48)) 0

/-- Two-digit zero-padded rendering (`%02d`) of a number below 100. -/
def fmt2 (n : Nat) : Str :=
  [Char.ofNat (48 + n / 10 % 10), Char.ofNat (48 + n % 10)]

/-- Four-digit zero-padded rendering (`%Y`) of a year below 10000. -/
def fmt4 (n : Nat) : Str :=
  [Char.ofNat (48 + n / 1000 % 10), Char.ofNat (48 + n / 100 % 10),
   Char.ofNat (48 + n / 10 % 10), Char.ofNat (48 + n % 10)]

/-- A Python `float` value as far as this pipeline can observe it:
a finite value (exact, in `ℚ`), the two infinities, or `nan`. -/
inductive PyF where
  | finite (q : ℚ)
  | inf
  | neginf
  | nan
deriving DecidableEq

/-- Python `<` on floats: any comparison against `nan` is false. -/
def pyfLt (a b : PyF) : Bool :=
  match a, b with
  | .nan, _ => false
  | _, .nan => false
  | .finite x, .finite y => x < y
  | .finite _, .inf => true
  | .finite _, .neginf => false
  | .inf, _ => false
  | .neginf, .neginf => false
  | .neginf, _ => true

/-- Python `<=` on floats: any comparison against `nan` is false. -/
def pyfLe (a b : PyF) : Bool :=
  match a, b with
  | .nan, _ => false
  | _, .nan => false
  | .finite x, .finite y => x ≤ y
  | .finite _, .inf => true
  | .finite _, .neginf => false
  | .inf, .inf => true
  | .inf, _ => false
  | .neginf, _ => true

/-- Python float subtraction (IEEE): `inf - inf = nan`, `nan` absorbs. -/
def pyfSub (a b : PyF) : PyF :=
  match a, b with
  | .nan, _ => .nan
  | _, .nan => .nan
  | .finite x, .finite y => .finite (x - y)
  | .finite _, .inf => .neginf
  | .finite _, .neginf => .inf
  | .inf, .finite _ => .inf
  | .inf, .inf => .nan
  | .inf, .neginf => .inf
  | .neginf, .finite _ => .neginf
  | .neginf, .inf => .neginf
  | .neginf, .neginf => .nan

/-- Python float division (IEEE).  The odds converter only divides
after checking `den > 0`, which excludes the zero and `nan`
denominators on which Python would raise `ZeroDivisionError` or give
`nan`; the `finite x / finite 0` case (Lean's `x / 0 = 0`) is
unreachable under that guard. -/
def pyfDiv (a b : PyF) : PyF :=
  match a, b with
  | .nan, _ => .nan
  | _, .nan => .nan
  | .finite x, .finite y => .finite (x / y)
  | .finite _, .inf => .finite 0
  | .finite _, .neginf => .finite 0
  | .inf, .finite y => if 0 < y then .inf else if y < 0 then .neginf else .nan
  | .neginf, .finite y => if 0 < y then .neginf else if y < 0 then .inf else .nan
  | .inf, .inf => .nan
  | .inf, .neginf => .nan
  | .neginf, .inf => .nan
  | .neginf, .neginf => .nan

/-- A Python `digitpart`: a digit, then more digits with single
underscores allowed between digits only.  Returns the value, the digit
count (underscores excluded) and the unconsumed rest; an underscore not
followed by a digit is left unconsumed (and then fails the caller's
full-consumption check, as in CPython). -/
def dpLoop (acc cnt : Nat) : Str → Nat × Nat × Str
  | [] => (acc, cnt, [])
  | c :: rest =>
    if isDigitC c then dpLoop (10 * acc + (c.toNat - 48)) (cnt + 1) rest
    else if c = '_' then
      match rest with
      | c2 :: rest2 =>
        if isDigitC c2 then dpLoop (10 * acc + (c2.toNat - 48)) (cnt + 1) rest2
        else (acc, cnt, c :: rest)
      | [] => (acc, cnt, c :: rest)
    else (acc, cnt, c :: rest)

/-- Parse a `digitpart` (fails unless it starts with a digit). -/
def parseDP (s : Str) : Option (Nat × Nat × Str) :=
  match s with
  | c :: rest => if isDigitC c then some (dpLoop (c.toNat - 48) 1 rest) else none
  | [] => none

/-- The tail of a Python float literal after the digits: end of string,
or `e`/`E`, an optional sign and a `digitpart`, nothing left over.
Builds the value from the collected sign, integer part and fractional
part (`fpc` fractional digits). -/
def pyFloatExpPart (neg : Bool) (ip fp fpc : Nat) (rest : Str) : Option PyF :=
  let mk : Int → PyF := fun e =>
    let mag : ℚ := ((ip : ℚ) + (fp : ℚ) / (10 : ℚ) ^ fpc) * (10 : ℚ) ^ e
    .finite (if neg then -mag else mag)
  match rest with
  | [] => some (mk 0)
  | e :: r =>
    if e = 'e' ∨ e = 'E' then
      let (esg, r2) : Int × Str :=
        match r with
        | '+' :: rr => (1, rr)
        | '-' :: rr => (-1, rr)
        | rr => (1, rr)
      match parseDP r2 with
      | some (ev, _, rest3) => if rest3 = [] then some (mk (esg * (ev : Int))) else none
      | none => none
    else none

/-- Python `float(s)`: strip surrounding whitespace, optional sign,
then (case-insensitively) `inf`/`infinity`/`nan` or a decimal literal —
digits with single underscores between them, an optional fractional
part (`"1."` and `".5"` are legal, `"."` is not) and an optional
exponent.  Finite values are exact in `ℚ`; the binary rounding of the
actual `float` is immaterial to every property verified here. -/
def pyFloat (s0 : Str) : Option PyF :=
  let s1 := stripWS s0
  let (neg, s2) : Bool × Str :=
    match s1 with
    | '+' :: r => (false, r)
    | '-' :: r => (true, r)
    | r => (false, r)
  let low := s2.map toLowerC
  if low = "inf".toList ∨ low = "infinity".toList then
    some (if neg then .neginf else .inf)
  else if low = "nan".toList then some .nan
  else
    match parseDP s2 with
    | some (ip, _, rest) =>
      match rest with
      | '.' :: r2 =>
        (match parseDP r2 with
         | some (fp, fpc, rest2) => pyFloatExpPart neg ip fp fpc rest2
         | none => pyFloatExpPart neg ip 0 0 r2)
      | _ => pyFloatExpPart neg ip 0 0 rest
    | none =>
      match s2 with
      | '.' :: r2 =>
        (match parseDP r2 with
         | some (fp, fpc, rest2) => pyFloatExpPart neg 0 fp fpc rest2
         | none => none)
      | _ => none

/-- First-occurrence split `s.split("/", 1)`, defined when `'/'` occurs. -/
def splitSlash (s : Str) : Str × Str :=
  (s.takeWhile (· ≠ '/'), (s.dropWhile (· ≠ '/')).drop 1)

/-- `odds_str.strip().upper().replace("-", "/")`, the normalization both
odds converters apply first. -/
def normOdds (odds : Str) : Str :=
  (stripWS odds).map (fun c => if toUpperC c = '-' then '/' else toUpperC c)

namespace CD

/-- `createDigest.convert_odds_to_fractional`: normalize (strip,
upper-case, hyphen→slash), handle the special spellings, then either the
`N/D` fractional branch or the plain-decimal branch, with `999.0` as the
failure sentinel; `float()` itself strips whitespace from the split
pieces and parses `inf`/`nan` spellings, which then flow through the
float arithmetic. -/
def convert_odds_to_fractional (odds : Str) : PyF :=
  if stripWS odds = [] then .finite 999
  else
    let s := normOdds odds
    if s = "SP".toList ∨ s = "NR".toList then .finite 999
    else if s = "EVS".toList ∨ s = "EVENS".toList then .finite 1
    else if '/' ∈ s then
      match pyFloat (splitSlash s).1, pyFloat (splitSlash s).2 with
      | some num, some den => if pyfLt (.finite 0) den then pyfDiv num den else .finite 999
      | _, _ => .finite 999
    else
      match pyFloat s with
      | some dec => if pyfLt (.finite 1) dec then pyfSub dec (.finite 1) else .finite 999
      | none => .finite 999

end CD

namespace RS

/-- `racing_scanner.convert_odds_to_fractional`: identical to the
`createDigest` version except that the special-case set also contains
`VOID` and `WD`. -/
def convert_odds_to_fractional (odds : Str) : PyF :=
  if stripWS odds = [] then .finite 999
  else
    let s := normOdds odds
    if s = "SP".toList ∨ s = "NR".toList ∨ s = "VOID".toList ∨ s = "WD".toList then .finite 999
    else if s = "EVS".toList ∨ s = "EVENS".toList then .finite 1
    else if '/' ∈ s then
      match pyFloat (splitSlash s).1, pyFloat (splitSlash s).2 with
      | some num, some den => if pyfLt (.finite 0) den then pyfDiv num den else .finite 999
      | _, _ => .finite 999
    else
      match pyFloat s with
      | some dec => if pyfLt (.finite 1) dec then pyfSub dec (.finite 1) else .finite 999
      | none => .finite 999

end RS

example : CD.convert_odds_to_fractional "SP".toList = .finite 999 := by with_unfolding_all rfl
example : CD.convert_odds_to_fractional "EVS".toList = .finite 1 := by with_unfolding_all rfl
example : CD.convert_odds_to_fractional "3/1".toList = .finite 3 := by with_unfolding_all rfl
example : CD.convert_odds_to_fractional "9/4".toList = .finite (9/4) := by with_unfolding_all rfl
example : CD.convert_odds_to_fractional "2.5".toList = .finite (3/2) := by with_unfolding_all rfl
example : CD.convert_odds_to_fractional "garbage".toList = .finite 999 := by with_unfolding_all rfl
example : CD.convert_odds_to_fractional "5/0".toList = .finite 999 := by with_unfolding_all rfl
example : CD.convert_odds_to_fractional "9-4".toList = .finite (9/4) := by with_unfolding_all rfl
example : CD.convert_odds_to_fractional "9 - 4".toList = .finite (9/4) := by with_unfolding_all rfl
example : CD.convert_odds_to_fractional "inf".toList = .inf := by with_unfolding_all rfl
example : CD.convert_odds_to_fractional "1_0".toList = .finite 9 := by with_unfolding_all rfl
example : CD.convert_odds_to_fractional "nan".toList = .finite 999 := by with_unfolding_all rfl
example : RS.convert_odds_to_fractional "VOID".toList = .finite 999 := by with_unfolding_all rfl
example : pyFloat " 9 ".toList = some (.finite 9) := by with_unfolding_all rfl
example : pyFloat "1.".toList = some (.finite 1) := by with_unfolding_all rfl
example : pyFloat ".5".toList = some (.finite (1/2)) := by with_unfolding_all rfl
example : pyFloat ".".toList = none := by with_unfolding_all rfl
example : pyFloat "1_".toList = none := by with_unfolding_all rfl
example : pyFloat "1__0".toList = none := by with_unfolding_all rfl
example : pyFloat "-Infinity".toList = some .neginf := by with_unfolding_all rfl
example : pyFloat "1e1_0".toList = some (.finite (10 ^ 10)) := by with_unfolding_all rfl
example : pyFloat "2E-1".toList = some (.finite (1/5)) := by with_unfolding_all rfl

/-! ## createDigest.py data model -/

/-- A `datetime` value; only the calendar fields the verified code reads
(`strftime("%Y-%m-%d")`) are modelled, plus clock fields for fidelity. -/
structure PyDateTime where
  year : Nat
  month : Nat
  day : Nat
  hour : Nat
  minute : Nat
deriving DecidableEq

/-- `dt.strftime("%Y-%m-%d")`. -/
def dateStr (dt : PyDateTime) : Str :=
  fmt4 dt.year ++ '-' :: fmt2 dt.month ++ '-' :: fmt2 dt.day

/-- One participant entry.  The sources build these as dicts carrying a
name and an odds text; the merge and scoring code reads only
`get("odds_str")`, with absence and `""` treated alike (design note 9 of
the spec: a small typed record `{name, oddsText}`). -/
structure Runner where
  name : Str
  odds_str : Str
deriving DecidableEq

/-- Insertion-ordered association list: the model of a Python `dict`. -/
abbrev PyDict := List (Str × Str)

/-- `d.get(k)`. -/
def lookupD (d : PyDict) (k : Str) : Option Str :=
  match d with
  | [] => none
  | (k', v) :: rest => if k' = k then some v else lookupD rest k

/-- `{**d1, **d2}`: `d1`'s keys in order with values overridden by `d2`
where present, then `d2`'s new keys in order. -/
def dictUnion (d1 d2 : PyDict) : PyDict :=
  d1.map (fun kv => (kv.1, (lookupD d2 kv.1).getD kv.2)) ++
    d2.filter (fun kv => (lookupD d1 kv.1).isNone)

/-- Python `or` on a string pair: the first operand unless it is empty. -/
def orStr (p s : Str) : Str := if p = [] then s else p

/-- Python `or` on optional strings: falls through on `None` and `""`. -/
def orOptStr (p s : Option Str) : Option Str :=
  match p with
  | none => s
  | some v => if v = [] then s else some v

/-- Python `or` on optional ints: falls through on `None` and `0`. -/
def orOptInt (p s : Option Int) : Option Int :=
  match p with
  | none => s
  | some v => if v = 0 then s else some v

namespace CD

/-- The `RaceData` dataclass of `createDigest.py`. -/
structure RaceData where
  id : Str
  course : Str
  race_time : Str
  utc_datetime : PyDateTime
  local_time : Str
  timezone_name : Str
  field_size : Int
  country : Str
  discipline : Str
  race_number : Option Int
  grade : Option Str
  distance : Option Str
  surface : Option Str
  favorite : Option Runner
  second_favorite : Option Runner
  all_runners : List Runner
  race_url : Str
  form_guide_url : Option Str := none
  value_score : ℚ := 0
  data_sources : PyDict := []
deriving DecidableEq

/-- Recursion core of `removeParens`; the fuel (an upper bound on the
remaining length, so it never runs out) keeps the recursion structural
and hence kernel-evaluable. -/
def removeParensAux : Nat → Str → Str
  | 0, _ => []
  | _ + 1, [] => []
  | fuel + 1, c :: rest =>
    match (c :: rest).dropWhile isSpaceC with
    | '(' :: t1 =>
      match t1.dropWhile (· ≠ ')') with
      | [] => c :: removeParensAux fuel rest
      | _ :: afterClose => removeParensAux fuel afterClose
    | _ => c :: removeParensAux fuel rest

/-- `re.sub(r"\s*\([^)]*\)", "", ·)`: delete every whitespace-run
followed by a parenthesized group (left to right, non-overlapping); a
`(` with no later `)` is left alone. -/
def removeParens (s : Str) : Str := removeParensAux s.length s

/-- `RacingDataAggregator._normalize_course_name`:
`re.sub(r"\s*\([^)]*\)", "", name.lower().strip())` (empty in, empty out). -/
def _normalize_course_name (name : Str) : Str :=
  if name = [] then [] else removeParens (stripWS (name.map toLowerC))

/-- `datetime.strptime(s, "%H:%M")`: an `%H` hour (1–2 digits, 0–23),
a literal colon, an `%M` minute (1–2 digits, 0–59), nothing left over. -/
def parseHM (s : Str) : Option (Nat × Nat) :=
  let mm : Str → Option Nat := fun t =>
    match t with
    | [m1, m2] =>
      if isDigitC m1 ∧ isDigitC m2 then
        let m := 10 * (m1.toNat - 48) + (m2.toNat - 48)
        if m ≤ 59 then some m else none
      else none
    | [m1] => if isDigitC m1 then some (m1.toNat - 48) else none
    | _ => none
  match s with
  | c1 :: c2 :: ':' :: rest =>
    if isDigitC c1 ∧ isDigitC c2 then
      let h := 10 * (c1.toNat - 48) + (c2.toNat - 48)
      if h ≤ 23 then (mm rest).map (fun m => (h, m)) else none
    else none
  | c1 :: ':' :: rest =>
    if isDigitC c1 then (mm rest).map (fun m => (c1.toNat - 48, m)) else none
  | _ => none

/-- The `try` body of `_key`: parse `race_time` as `%H:%M`, floor the
minute to the 5-minute bucket and re-render as `%H:%M`; on parse failure
keep the raw text. -/
def floor5 (t : Str) : Str :=
  match parseHM t with
  | some (h, m) => fmt2 h ++ ':' :: fmt2 (m / 5 * 5)
  | none => t

/-- `RacingDataAggregator._key`: `"|".join([course, date, t_norm])`. -/
def _key (r : RaceData) : Str :=
  _normalize_course_name r.course ++ '|' :: dateStr r.utc_datetime ++ '|' :: floor5 r.race_time

/-- `get_richness` from `RacingDataAggregator._merge`. -/
def get_richness (r : RaceData) : Nat :=
  if r.all_runners.any (fun x => x.odds_str ≠ []) then 2
  else if 0 < r.field_size then 1
  else 0

/-- Python's `sorted` is a stable sort; insertion sort on the
non-strict key order produces the identical list (stable sorts of a
total preorder have a unique output).  `nan` keys — possible only for
the literal odds text `"nan"` — break the total preorder in Python
itself, where the resulting order is an artifact of Timsort; the model
fixes the analogous artifact of this insertion sort. -/
def sortByOdds (l : List Runner) : List Runner :=
  l.insertionSort (fun x y =>
    pyfLe (convert_odds_to_fractional x.odds_str) (convert_odds_to_fractional y.odds_str)
      = true)

/-- The body of `RacingDataAggregator._merge` after `primary, secondary`
have been chosen. -/
def mergePS (primary secondary : RaceData) : RaceData :=
  let merged_sources := dictUnion secondary.data_sources primary.data_sources
  let all_runners :=
    if secondary.all_runners.length ≤ primary.all_runners.length then primary.all_runners
    else secondary.all_runners
  let favPair : Option Runner × Option Runner :=
    match primary.favorite with
    | some f => (some f, primary.second_favorite)
    | none =>
      if all_runners ≠ [] then
        ((sortByOdds all_runners).head?, (sortByOdds all_runners)[1]?)
      else (none, primary.second_favorite)
  { id := primary.id
    course := orStr primary.course secondary.course
    race_time := orStr primary.race_time secondary.race_time
    utc_datetime := primary.utc_datetime
    local_time := orStr primary.local_time secondary.local_time
    timezone_name := orStr primary.timezone_name secondary.timezone_name
    field_size := max primary.field_size secondary.field_size
    country := orStr primary.country secondary.country
    discipline := orStr primary.discipline secondary.discipline
    race_number := orOptInt primary.race_number secondary.race_number
    grade := orOptStr primary.grade secondary.grade
    distance := orOptStr primary.distance secondary.distance
    surface := orOptStr primary.surface secondary.surface
    favorite := favPair.1
    second_favorite := favPair.2
    all_runners := all_runners
    race_url := orStr primary.race_url secondary.race_url
    form_guide_url := orOptStr primary.form_guide_url secondary.form_guide_url
    value_score := 0
    data_sources := merged_sources }

/-- `RacingDataAggregator._merge`: the record of higher richness is
primary; on a tie the first argument (the accumulator in the fold) is. -/
def _merge (a b : RaceData) : RaceData :=
  if get_richness b ≤ get_richness a then mergePS a b else mergePS b a

/-- One step of the `_dedupe_merge` fold:
`m[k] = self._merge(m[k], r) if k in m else r`, on an insertion-ordered
dict (update in place, append fresh keys at the end). -/
def dedupeStep (m : List (Str × RaceData)) (k : Str) (r : RaceData) :
    List (Str × RaceData) :=
  match m with
  | [] => [(k, r)]
  | (k', v) :: rest =>
    if k' = k then (k', _merge v r) :: rest else (k', v) :: dedupeStep rest k r

/-- `RacingDataAggregator._dedupe_merge`: fold the records into a dict
keyed by `_key`, then `list(m.values())` in insertion order. -/
def _dedupe_merge (races : List RaceData) : List RaceData :=
  (races.foldl (fun m r => dedupeStep m (_key r) r) []).map Prod.snd

end CD

example : CD.parseHM "14:02".toList = some (14, 2) := by with_unfolding_all rfl
example : CD.parseHM "9:5".toList = some (9, 5) := by with_unfolding_all rfl
example : CD.parseHM "24:00".toList = none := by with_unfolding_all rfl
example : CD.parseHM "14:60".toList = none := by with_unfolding_all rfl
example : CD.parseHM "123:45".toList = none := by with_unfolding_all rfl
example : CD.floor5 "14:02".toList = "14:00".toList := by with_unfolding_all rfl
example : CD.floor5 "14:06".toList = "14:05".toList := by with_unfolding_all rfl
example : CD.floor5 "junk".toList = "junk".toList := by with_unfolding_all rfl
example : CD._normalize_course_name "Ascot (UK)".toList = "ascot".toList := by
  with_unfolding_all rfl
example : CD._normalize_course_name "  Kempton Park ".toList = "kempton park".toList := by
  with_unfolding_all rfl

/-! ## Claim C4: odds conversion -/

/-- `s.replace("-", "/")` character map, used to state that a hyphen is
a slash synonym for the odds converters. -/
def hyphRepl (c : Char) : Char := if c = '-' then '/' else c

theorem stripWS_map (f : Char → Char) (h : ∀ c, isSpaceC (f c) = isSpaceC c) (l : Str) :
    stripWS (l.map f) = (stripWS l).map f := by
  have hp : isSpaceC ∘ f = isSpaceC := funext h
  unfold stripWS
  simp only [List.dropWhile_map, hp, ← List.map_reverse]

theorem normOdds_hyphRepl (s : Str) : normOdds (s.map hyphRepl) = normOdds s := by
  unfold normOdds
  rw [stripWS_map hyphRepl (by intro c; by_cases hc : c = '-' <;> simp [hyphRepl, hc] <;> rfl)]
  rw [List.map_map]
  congr 1
  funext c
  by_cases hc : c = '-' <;> simp [hyphRepl, hc, toUpperC]

theorem stripWS_hyphRepl_nil (s : Str) : stripWS (s.map hyphRepl) = [] ↔ stripWS s = [] := by
  rw [stripWS_map hyphRepl (by intro c; by_cases hc : c = '-' <;> simp [hyphRepl, hc] <;> rfl)]
  simp

/-- C4: fractional-odds conversion is a total, pure function on strings
with `convert("SP")=999`, `convert("EVS")=1`, `convert("3/1")=3`,
`convert("9/4")=2.25`, `convert("1/2")=0.5`, `convert("2.5")=1.5`,
`convert("")=999`, `convert("garbage")=999`, `convert("5/0")=999`
(both the `createDigest.py` and the `racing_scanner.py` copies); a
hyphen is a slash synonym; an `N/D` form with non-positive (or `nan`)
denominator or a `float()` failure on either part yields the sentinel
`999.0`; and a plain parsed decimal `d` yields `d - 1` (in float
arithmetic) when `d > 1` and the sentinel otherwise.  `float()` strips
whitespace from the split pieces and parses `inf`/underscore forms, so
`"9 - 4"` converts to `2.25` and `"inf"` to `inf`.  (Totality and
purity hold by construction: the embedding is a total function on
`Str` with no state.) -/
theorem C4_odds_conversion :
    (CD.convert_odds_to_fractional "SP".toList = .finite 999
      ∧ CD.convert_odds_to_fractional "EVS".toList = .finite 1
      ∧ CD.convert_odds_to_fractional "3/1".toList = .finite 3
      ∧ CD.convert_odds_to_fractional "9/4".toList = .finite (9/4)
      ∧ CD.convert_odds_to_fractional "1/2".toList = .finite (1/2)
      ∧ CD.convert_odds_to_fractional "2.5".toList = .finite (3/2)
      ∧ CD.convert_odds_to_fractional "".toList = .finite 999
      ∧ CD.convert_odds_to_fractional "garbage".toList = .finite 999
      ∧ CD.convert_odds_to_fractional "5/0".toList = .finite 999)
    ∧ (RS.convert_odds_to_fractional "SP".toList = .finite 999
      ∧ RS.convert_odds_to_fractional "EVS".toList = .finite 1
      ∧ RS.convert_odds_to_fractional "3/1".toList = .finite 3
      ∧ RS.convert_odds_to_fractional "9/4".toList = .finite (9/4)
      ∧ RS.convert_odds_to_fractional "1/2".toList = .finite (1/2)
      ∧ RS.convert_odds_to_fractional "2.5".toList = .finite (3/2)
      ∧ RS.convert_odds_to_fractional "".toList = .finite 999
      ∧ RS.convert_odds_to_fractional "garbage".toList = .finite 999
      ∧ RS.convert_odds_to_fractional "5/0".toList = .finite 999)
    ∧ (CD.convert_odds_to_fractional "9 - 4".toList = .finite (9/4)
      ∧ CD.convert_odds_to_fractional "inf".toList = .inf
      ∧ CD.convert_odds_to_fractional "1_0".toList = .finite 9
      ∧ RS.convert_odds_to_fractional "9 - 4".toList = .finite (9/4))
    ∧ (∀ s : Str, CD.convert_odds_to_fractional (s.map hyphRepl) = CD.convert_odds_to_fractional s)
    ∧ (∀ s : Str, RS.convert_odds_to_fractional (s.map hyphRepl) = RS.convert_odds_to_fractional s)
    ∧ (∀ (s : Str) (n d : PyF), stripWS s ≠ []
        → ¬ (normOdds s = "SP".toList ∨ normOdds s = "NR".toList)
        → ¬ (normOdds s = "EVS".toList ∨ normOdds s = "EVENS".toList)
        → '/' ∈ normOdds s
        → pyFloat (splitSlash (normOdds s)).1 = some n
        → pyFloat (splitSlash (normOdds s)).2 = some d
        → CD.convert_odds_to_fractional s
            = if pyfLt (.finite 0) d then pyfDiv n d else .finite 999)
    ∧ (∀ s : Str, stripWS s ≠ []
        → ¬ (normOdds s = "SP".toList ∨ normOdds s = "NR".toList)
        → ¬ (normOdds s = "EVS".toList ∨ normOdds s = "EVENS".toList)
        → '/' ∈ normOdds s
        → (pyFloat (splitSlash (normOdds s)).1 = none ∨ pyFloat (splitSlash (normOdds s)).2 = none)
        → CD.convert_odds_to_fractional s = .finite 999)
    ∧ (∀ (s : Str) (q : PyF), stripWS s ≠ []
        → ¬ (normOdds s = "SP".toList ∨ normOdds s = "NR".toList)
        → ¬ (normOdds s = "EVS".toList ∨ normOdds s = "EVENS".toList)
        → '/' ∉ normOdds s
        → pyFloat (normOdds s) = some q
        → CD.convert_odds_to_fractional s
            = if pyfLt (.finite 1) q then pyfSub q (.finite 1) else .finite 999)
    ∧ (∀ s : Str, stripWS s ≠ []
        → ¬ (normOdds s = "SP".toList ∨ normOdds s = "NR".toList)
        → ¬ (normOdds s = "EVS".toList ∨ normOdds s = "EVENS".toList)
        → '/' ∉ normOdds s
        → pyFloat (normOdds s) = none
        → CD.convert_odds_to_fractional s = .finite 999) := by
  refine ⟨⟨?_, ?_, ?_, ?_, ?_, ?_, ?_, ?_, ?_⟩, ⟨?_, ?_, ?_, ?_, ?_, ?_, ?_, ?_, ?_⟩,
    ⟨?_, ?_, ?_, ?_⟩, ?_, ?_, ?_, ?_, ?_, ?_⟩
  · with_unfolding_all rfl
  · with_unfolding_all rfl
  · with_unfolding_all rfl
  · with_unfolding_all rfl
  · with_unfolding_all rfl
  · with_unfolding_all rfl
  · with_unfolding_all rfl
  · with_unfolding_all rfl
  · with_unfolding_all rfl
  · with_unfolding_all rfl
  · with_unfolding_all rfl
  · with_unfolding_all rfl
  · with_unfolding_all rfl
  · with_unfolding_all rfl
  · with_unfolding_all rfl
  · with_unfolding_all rfl
  · with_unfolding_all rfl
  · with_unfolding_all rfl
  · with_unfolding_all rfl
  · with_unfolding_all rfl
  · with_unfolding_all rfl
  · with_unfolding_all rfl
  · intro s
    unfold CD.convert_odds_to_fractional
    rw [normOdds_hyphRepl]
    by_cases hs : stripWS s = []
    · rw [if_pos ((stripWS_hyphRepl_nil s).mpr hs), if_pos hs]
    · rw [if_neg (fun h => hs ((stripWS_hyphRepl_nil s).mp h)), if_neg hs]
  · intro s
    unfold RS.convert_odds_to_fractional
    rw [normOdds_hyphRepl]
    by_cases hs : stripWS s = []
    · rw [if_pos ((stripWS_hyphRepl_nil s).mpr hs), if_pos hs]
    · rw [if_neg (fun h => hs ((stripWS_hyphRepl_nil s).mp h)), if_neg hs]
  · intro s n d hne hsp hev hslash hn hd
    unfold CD.convert_odds_to_fractional
    rw [if_neg hne]
    simp only [if_neg hsp, if_neg hev, if_pos hslash, hn, hd]
  · intro s hne hsp hev hslash hfail
    unfold CD.convert_odds_to_fractional
    rw [if_neg hne]
    simp only [if_neg hsp, if_neg hev, if_pos hslash]
    rcases hfail with h | h <;> rw [h] <;> cases pyFloat (splitSlash (normOdds s)).2 <;>
      cases pyFloat (splitSlash (normOdds s)).1 <;> rfl
  · intro s q hne hsp hev hslash hq
    unfold CD.convert_odds_to_fractional
    rw [if_neg hne]
    simp only [if_neg hsp, if_neg hev, if_neg hslash, hq]
  · intro s hne hsp hev hslash hq
    unfold CD.convert_odds_to_fractional
    rw [if_neg hne]
    simp only [if_neg hsp, if_neg hev, if_neg hslash, hq]

/-- Witness for `C4_odds_conversion`: its quantified conjuncts applied
at concrete inputs (`"9/4"` through the fractional branch, `"2.5"`
through the decimal branch, `"9-4"` through the hyphen-synonym
property). -/
theorem C4_odds_conversion_witness :
    CD.convert_odds_to_fractional "9/4".toList
      = (if pyfLt (.finite 0) (.finite 4) then pyfDiv (.finite 9) (.finite 4) else .finite 999)
    ∧ CD.convert_odds_to_fractional "2.5".toList
      = (if pyfLt (.finite 1) (.finite (5/2)) then pyfSub (.finite (5/2)) (.finite 1)
         else .finite 999)
    ∧ CD.convert_odds_to_fractional ("9-4".toList.map hyphRepl) =
        CD.convert_odds_to_fractional "9-4".toList := by
  refine ⟨?_, ?_, C4_odds_conversion.2.2.2.1 "9-4".toList⟩
  · exact C4_odds_conversion.2.2.2.2.2.1 "9/4".toList (.finite 9) (.finite 4)
      (by with_unfolding_all decide) (by with_unfolding_all decide)
      (by with_unfolding_all decide) (by with_unfolding_all decide)
      (by with_unfolding_all decide) (by with_unfolding_all decide)
  · exact C4_odds_conversion.2.2.2.2.2.2.2.1 "2.5".toList (.finite (5/2))
      (by with_unfolding_all decide) (by with_unfolding_all decide)
      (by with_unfolding_all decide) (by with_unfolding_all decide)
      (by with_unfolding_all decide)

/-! ## Claim C2: the merge key and its 5-minute bucketing -/

/-- An all-empty `createDigest` record, used to build concrete test
records by field update. -/
def baseRace : CD.RaceData :=
  { id := [], course := [], race_time := [],
    utc_datetime := ⟨2024, 5, 1, 0, 0⟩, local_time := [], timezone_name := [],
    field_size := 0, country := [], discipline := [], race_number := none,
    grade := none, distance := none, surface := none, favorite := none,
    second_favorite := none, all_runners := [], race_url := [],
    form_guide_url := none, value_score := 0, data_sources := [] }

/-- C2: the merge key is the `|`-join of (normalized venue, calendar
date of the UTC instant, scheduled time floored to its 5-minute
bucket); records with equal venue and date and times `"14:02"` and
`"14:04"` share a key, while `"14:04"` and `"14:06"` do not. -/
theorem C2_merge_key_bucketing :
    (∀ (r : CD.RaceData) (h m : Nat), CD.parseHM r.race_time = some (h, m) →
      CD._key r = CD._normalize_course_name r.course ++ '|' :: dateStr r.utc_datetime
        ++ '|' :: (fmt2 h ++ ':' :: fmt2 (m / 5 * 5)))
    ∧ (∀ a b : CD.RaceData, a.course = b.course
        → dateStr a.utc_datetime = dateStr b.utc_datetime
        → a.race_time = "14:02".toList → b.race_time = "14:04".toList
        → CD._key a = CD._key b)
    ∧ (∀ a b : CD.RaceData, a.course = b.course
        → dateStr a.utc_datetime = dateStr b.utc_datetime
        → a.race_time = "14:04".toList → b.race_time = "14:06".toList
        → CD._key a ≠ CD._key b) := by
  refine ⟨?_, ?_, ?_⟩
  · intro r h m hp
    unfold CD._key CD.floor5
    rw [hp]
  · intro a b hc hd ht1 ht2
    unfold CD._key
    rw [hc, hd, ht1, ht2]
    have : CD.floor5 "14:02".toList = CD.floor5 "14:04".toList := by with_unfolding_all rfl
    rw [this]
  · intro a b hc hd ht1 ht2 heq
    unfold CD._key at heq
    rw [hc, hd, ht1, ht2] at heq
    have h2 := List.append_cancel_left heq
    have h3 := List.cons.inj h2
    have h4 := List.append_cancel_left h3.2
    exact absurd (List.cons.inj h4).2 (by with_unfolding_all decide)

/-- Witness for `C2_merge_key_bucketing`: concrete Ascot records on the
same day at `14:02`/`14:04` (shared key) and `14:04`/`14:06`
(distinct keys). -/
theorem C2_merge_key_bucketing_witness :
    CD._key { baseRace with course := "Ascot".toList, race_time := "14:02".toList }
      = CD._key { baseRace with course := "Ascot".toList, race_time := "14:04".toList }
    ∧ CD._key { baseRace with course := "Ascot".toList, race_time := "14:04".toList }
      ≠ CD._key { baseRace with course := "Ascot".toList, race_time := "14:06".toList } := by
  constructor
  · exact C2_merge_key_bucketing.2.1 _ _ rfl rfl rfl rfl
  · exact C2_merge_key_bucketing.2.2 _ _ rfl rfl rfl rfl

/-! ## racing_scanner.py data model and both value scorers -/

namespace RS

/-- The `RaceData` dataclass of `racing_scanner.py` (fewer fields than
the `createDigest.py` one). -/
structure RaceData where
  id : Str
  course : Str
  race_time : Str
  utc_datetime : PyDateTime
  local_time : Str
  timezone_name : Str
  field_size : Int
  country : Str
  discipline : Str
  race_url : Str := []
  form_guide_url : Option Str := none
  favorite : Option Runner := none
  second_favorite : Option Runner := none
  all_runners : List Runner := []
  value_score : ℚ := 0
  data_sources : PyDict := []
deriving DecidableEq

/-- The `SourceError` dataclass. -/
structure SourceError where
  source_name : Str
  error_message : Str
  error_type : Str
  timestamp : PyDateTime
  url : Option Str := none
deriving DecidableEq

/-- The `ScanStatistics` dataclass; `per_source_counts` is an
insertion-ordered dict from source name to count. -/
structure ScanStatistics where
  total_races_found : Nat := 0
  races_after_dedup : Nat := 0
  duration_seconds : ℚ := 0
  per_source_counts : List (Str × Nat) := []
  source_errors : List SourceError := []
deriving DecidableEq

/-- `fav.get("odds_str", "")` after `fav = race.favorite or {}`. -/
def oddsOf (o : Option Runner) : Str :=
  match o with
  | some r => r.odds_str
  | none => []

/-- `EnhancedValueScorer._calculate_field_score`. -/
def _calculate_field_score (size : Int) : ℚ :=
  if 3 ≤ size ∧ size ≤ 5 then 100
  else if 6 ≤ size ∧ size ≤ 8 then 85
  else if 9 ≤ size ∧ size ≤ 12 then 60
  else if size ≤ 2 then 30
  else 20

/-- `EnhancedValueScorer._calculate_favorite_odds_score` (Python's
chained `a <= x <= b` comparisons; every comparison against `nan` is
false, so `nan` odds fall through to the final 40). -/
def _calculate_favorite_odds_score (favorite : Option Runner) : ℚ :=
  match favorite with
  | none => 0
  | some f =>
    let odds := convert_odds_to_fractional f.odds_str
    if odds = .finite 999 then 30
    else if pyfLe (.finite 1) odds ∧ pyfLe odds (.finite (3/2)) then 100
    else if pyfLt (.finite (3/2)) odds ∧ pyfLe odds (.finite (5/2)) then 90
    else if pyfLt (.finite (5/2)) odds ∧ pyfLe odds (.finite 4) then 75
    else if pyfLe (.finite (1/2)) odds ∧ pyfLt odds (.finite 1) then 85
    else if pyfLt odds (.finite (1/2)) then 60
    else 40

/-- `EnhancedValueScorer._calculate_odds_spread_score` (float
subtraction; a `nan` spread fails every band test and yields 40). -/
def _calculate_odds_spread_score (favorite second_favorite : Option Runner) : ℚ :=
  match favorite, second_favorite with
  | some f, some s =>
    let fav_odds := convert_odds_to_fractional f.odds_str
    let sec_odds := convert_odds_to_fractional s.odds_str
    if fav_odds = .finite 999 ∨ sec_odds = .finite 999 then 50
    else
      let spread := pyfSub sec_odds fav_odds
      if pyfLe (.finite 2) spread then 100
      else if pyfLe (.finite (3/2)) spread then 90
      else if pyfLe (.finite 1) spread then 80
      else if pyfLe (.finite (1/2)) spread then 60
      else 40
  | _, _ => 50

/-- Truthiness of an optional string (`None` and `""` are falsy). -/
def pyTruthyOptStr (o : Option Str) : Bool :=
  match o with
  | some v => v ≠ []
  | none => false

/-- `EnhancedValueScorer._calculate_data_quality_score`. -/
def _calculate_data_quality_score (race : RaceData) : ℚ :=
  let s1 : ℚ := if race.all_runners ≠ [] ∧ race.all_runners.any (fun r => r.odds_str ≠ []) then 40 else 0
  let s2 : ℚ := if race.favorite.isSome ∧ race.second_favorite.isSome then 30 else 0
  let s3 : ℚ := if pyTruthyOptStr race.form_guide_url then 20 else 0
  let s4 : ℚ := if 1 < race.data_sources.length then 10 else 0
  min 100 (s1 + s2 + s3 + s4)

/-- `EnhancedValueScorer._has_live_odds`. -/
def _has_live_odds (race : RaceData) : Bool :=
  race.all_runners ≠ [] &&
    race.all_runners.any (fun r =>
      r.odds_str ≠ [] && r.odds_str ≠ "SP".toList && r.odds_str ≠ "NR".toList
        && r.odds_str ≠ "VOID".toList)

/-- `EnhancedValueScorer.calculate_score`: weighted base score
(weights 0.35 / 0.45 / 0.15 / 0.05), multiplicative bonuses for live
odds (1.2), greyhound racing (1.1) and small fields with a wide spread
(1.15), result clamped to `[0, 100]`. -/
def calculate_score (race : RaceData) : ℚ :=
  let field_score := _calculate_field_score race.field_size
  let fav_score := _calculate_favorite_odds_score race.favorite
  let spread_score := _calculate_odds_spread_score race.favorite race.second_favorite
  let quality_score := _calculate_data_quality_score race
  let base_score :=
    field_score * (35/100) + fav_score * (45/100) + spread_score * (15/100)
      + quality_score * (5/100)
  let m1 : ℚ := if _has_live_odds race then 12/10 else 1
  let m2 : ℚ := if race.discipline = "greyhound".toList then 11/10 else 1
  let m3 : ℚ := if race.field_size ≤ 6 ∧ 80 < spread_score then 115/100 else 1
  let final_score := base_score * (m1 * m2 * m3)
  min 100 (max 0 final_score)

end RS

namespace CD

/-- `min(100.0, max(0.0, (fav_f - 0.5) / 3.5 * 100))` of
`ValueScorer.calculate_score`, by case on the float value.  Python's
`max(0.0, x)` returns `x` iff `x > 0.0` (so `0.0` on `nan` and
`-inf`), and `min(100.0, y)` returns `y` iff `y < 100.0` (so `100.0`
on `inf`): the non-finite cases collapse to the stated constants. -/
def favPiece (x : PyF) : ℚ :=
  match x with
  | .finite q => min 100 (max 0 ((q - 1/2) / (7/2) * 100))
  | .inf => 100
  | .neginf => 0
  | .nan => 0

/-- `min(100.0, max(0.0, (sec_f - fav_f)) / 5 * 100)` of
`ValueScorer.calculate_score`, by case on the float spread (same
Python `min`/`max` semantics as `favPiece`). -/
def spreadPiece (z : PyF) : ℚ :=
  match z with
  | .finite q => min 100 (max 0 q / 5 * 100)
  | .inf => 100
  | .neginf => 0
  | .nan => 0

/-- `ValueScorer.calculate_score` of `createDigest.py` (weights
0.3 / 0.4 / 0.2 / 0.1, no multipliers, clamp via
`max(0.0, min(100.0, score))`).  The two odds-derived addends pass
through `min(100, max(0, ·))` before being summed, so the running
score is always a finite value even when an odds text parses to
`inf`/`nan`. -/
def calculate_score (race : RaceData) : ℚ :=
  let field_score := max 0 ((12 - max 0 (race.field_size : ℚ)) / 12 * 100)
  let fav_f := convert_odds_to_fractional (RS.oddsOf race.favorite)
  let sec_f := convert_odds_to_fractional (RS.oddsOf race.second_favorite)
  let s1 := field_score * (3/10)
  let s2 : ℚ :=
    if fav_f ≠ .finite 999 then favPiece fav_f * (4/10) else 0
  let s3 : ℚ :=
    if fav_f ≠ .finite 999 ∧ sec_f ≠ .finite 999 ∧ pyfLt fav_f sec_f then
      spreadPiece (pyfSub sec_f fav_f) * (2/10)
    else 0
  let s4 : ℚ := min 100 (race.data_sources.length * 25) * (1/10)
  max 0 (min 100 (s1 + s2 + s3 + s4))

end CD

/-- C9: both scorers return a value in `[0, 100]` for every record —
the weighted base score times the multiplicative bonuses, clamped.
Purity holds by construction: the embedded scorers are functions that
read the record and return a number without modifying any field. -/
theorem C9_score_bounds (r : RS.RaceData) (r' : CD.RaceData) :
    0 ≤ RS.calculate_score r ∧ RS.calculate_score r ≤ 100
      ∧ 0 ≤ CD.calculate_score r' ∧ CD.calculate_score r' ≤ 100 := by
  unfold RS.calculate_score CD.calculate_score
  refine ⟨le_min (by norm_num) (le_max_left 0 _), min_le_left _ _,
    le_max_left 0 _, max_le (by norm_num) (min_le_left _ _)⟩

/-! ## Claim C8: cache TTL derivation -/

namespace CD

/-- `re.search(r"max-age=(\d+)", cc)`: leftmost occurrence of the
literal `max-age=` followed by at least one digit; the capture is the
maximal digit run (greedy `\d+`).  (`int` of the capture cannot fail, so
the `except` around it in the source is dead.) -/
def findMaxAge : Str → Option Nat
  | [] => none
  | c :: rest =>
    let here := c :: rest
    let after := here.drop 8
    let ds := after.takeWhile isDigitC
    if "max-age=".toList.isPrefixOf here ∧ ds ≠ [] then some (digitsToNat ds)
    else findMaxAge rest

/-- `headers.get("cache-control") or headers.get("Cache-Control")`. -/
def ccHeader (headers : PyDict) : Option Str :=
  match lookupD headers "cache-control".toList with
  | some v => if v = [] then lookupD headers "Cache-Control".toList else some v
  | none => lookupD headers "Cache-Control".toList

/-- `CacheManager._ttl_from_headers`: clamp a parsed `max-age` to
`[60, 6*3600]`, else the default (1800 s = 30 min). -/
def _ttl_from_headers (headers : PyDict) (default_ttl : Nat := 1800) : Nat :=
  match ccHeader headers with
  | some cc =>
    if cc ≠ [] then
      match findMaxAge cc with
      | some n => max 60 (min (6 * 3600) n)
      | none => default_ttl
    else default_ttl
  | none => default_ttl

/-- The metadata entry written by `CacheManager.set` (`cached_at` and
`expires` are `datetime.now()` values, passed in as `now`). -/
structure CacheMeta where
  url : Str
  cached_at : ℚ
  expires : ℚ
  headers : PyDict
deriving DecidableEq

/-- The header-subset comprehension in `CacheManager.set`:
`{k.lower(): v for k, v in headers.items() if k and k.lower() in {...}}`. -/
def headerSubset (headers : PyDict) : PyDict :=
  headers.foldl
    (fun acc kv =>
      let kl := kv.1.map toLowerC
      if kv.1 ≠ [] ∧ (kl = "etag".toList ∨ kl = "last-modified".toList
          ∨ kl = "content-type".toList ∨ kl = "cache-control".toList) then
        dictUnion acc [(kl, kv.2)]
      else acc)
    []

/-- `CacheManager.set`: the metadata it stores for a URL, with
`expires = now + ttl` where the TTL comes from `_ttl_from_headers`. -/
def cacheSetMeta (now : ℚ) (url : Str) (headers : PyDict) : CacheMeta :=
  { url := url
    cached_at := now
    expires := now + (_ttl_from_headers headers : ℚ)
    headers := headerSubset headers }

end CD

/-- C8: `CacheManager.set` derives the TTL from the `max-age` header
clamped to `[60, 21600]` seconds, defaulting to `1800` when the header
is absent or unparseable; `max-age=999999` gives `21600`, `max-age=1`
gives `60`; the stored expiry is `now + ttl`. -/
theorem C8_cache_ttl :
    (∀ (headers : PyDict) (cc : Str) (n : Nat), CD.ccHeader headers = some cc
      → CD.findMaxAge cc = some n
      → CD._ttl_from_headers headers = max 60 (min 21600 n))
    ∧ (∀ headers : PyDict, CD.ccHeader headers = none → CD._ttl_from_headers headers = 1800)
    ∧ (∀ (headers : PyDict) (cc : Str), CD.ccHeader headers = some cc
      → CD.findMaxAge cc = none → CD._ttl_from_headers headers = 1800)
    ∧ CD._ttl_from_headers [("cache-control".toList, "max-age=999999".toList)] = 21600
    ∧ CD._ttl_from_headers [("cache-control".toList, "max-age=1".toList)] = 60
    ∧ CD._ttl_from_headers [] = 1800
    ∧ CD._ttl_from_headers [("cache-control".toList, "no-store".toList)] = 1800
    ∧ (∀ (now : ℚ) (url : Str) (headers : PyDict),
      (CD.cacheSetMeta now url headers).expires = now + CD._ttl_from_headers headers) := by
  refine ⟨?_, ?_, ?_, by with_unfolding_all rfl, by with_unfolding_all rfl,
    by with_unfolding_all rfl, by with_unfolding_all rfl, fun now url headers => rfl⟩
  · intro headers cc n h1 h2
    have hcc : cc ≠ [] := by
      intro h
      rw [h] at h2
      exact Option.noConfusion h2
    simp only [CD._ttl_from_headers, h1, if_pos hcc, h2]
  · intro headers h1
    simp only [CD._ttl_from_headers, h1]
  · intro headers cc h1 h2
    simp only [CD._ttl_from_headers, h1, h2]
    split <;> rfl

/-- Witness for `C8_cache_ttl`: the quantified conjuncts applied at a
concrete header dict carrying `max-age=999999`. -/
theorem C8_cache_ttl_witness :
    CD._ttl_from_headers [("cache-control".toList, "max-age=999999".toList)]
      = max 60 (min 21600 999999)
    ∧ (CD.cacheSetMeta 5 "u".toList [("cache-control".toList, "max-age=1".toList)]).expires
      = 5 + CD._ttl_from_headers [("cache-control".toList, "max-age=1".toList)] := by
  constructor
  · exact C8_cache_ttl.1 _ "max-age=999999".toList 999999
      (by with_unfolding_all rfl) (by with_unfolding_all rfl)
  · exact C8_cache_ttl.2.2.2.2.2.2.2 5 "u".toList _

/-! ## Claim C7: block-page detection -/

/-- `needle` is a prefix of the second argument (Python slice compare). -/
def isPrefixC : Str → Str → Bool
  | [], _ => true
  | _ :: _, [] => false
  | n :: ns, c :: cs => n = c && isPrefixC ns cs

/-- Python's substring test `needle in hay`. -/
def containsSub (needle : Str) : Str → Bool
  | [] => isPrefixC needle []
  | c :: rest => isPrefixC needle (c :: rest) || containsSub needle rest

theorem isPrefixC_iff (n s : Str) : isPrefixC n s = true ↔ ∃ t, s = n ++ t := by
  induction n generalizing s with
  | nil => simp [isPrefixC]
  | cons a ns ih =>
    cases s with
    | nil => simp [isPrefixC]
    | cons c cs =>
      simp only [isPrefixC, Bool.and_eq_true, decide_eq_true_eq, ih, List.cons_append,
        List.cons.injEq]
      constructor
      · rintro ⟨rfl, t, rfl⟩
        exact ⟨t, rfl, rfl⟩
      · rintro ⟨t, rfl, rfl⟩
        exact ⟨rfl, t, rfl⟩

theorem containsSub_iff (n h : Str) :
    containsSub n h = true ↔ ∃ pre post, h = pre ++ n ++ post := by
  induction h with
  | nil =>
    simp only [containsSub, isPrefixC_iff]
    constructor
    · rintro ⟨t, ht⟩
      exact ⟨[], t, by simpa using ht⟩
    · rintro ⟨pre, post, hp⟩
      exact ⟨post ++ pre, by
        rcases List.append_eq_nil.mp hp.symm with ⟨h1, h2⟩
        rcases List.append_eq_nil.mp h1 with ⟨h3, h4⟩
        simp [h2, h3, h4]⟩
  | cons c cs ih =>
    simp only [containsSub, Bool.or_eq_true, isPrefixC_iff, ih]
    constructor
    · rintro (⟨t, ht⟩ | ⟨pre, post, hp⟩)
      · exact ⟨[], t, by simpa using ht⟩
      · exact ⟨c :: pre, post, by simp [hp]⟩
    · rintro ⟨pre, post, hp⟩
      cases pre with
      | nil => exact Or.inl ⟨post, by simpa using hp⟩
      | cons p ps =>
        right
        rcases List.cons.inj hp with ⟨rfl, h2⟩
        exact ⟨ps, post, h2⟩

namespace RS

/-- The fixed `block_signals` list of `is_probable_block_page`. -/
def block_signals : List Str :=
  ["just a moment...".toList, "attention required! | cloudflare".toList,
   "check your browser".toList, "access denied".toList, "incapsula".toList,
   "unusual traffic".toList, "verify you are a human".toList,
   "cf-chl-bypass".toList, "cf-ray".toList, "turn on javascript".toList,
   "security check".toList, "please wait".toList, "ddos protection".toList]

/-- `racing_scanner.is_probable_block_page`: empty or short (< 200
characters) bodies are *not* classified; otherwise look for any known
challenge phrase in the lower-cased body. -/
def is_probable_block_page (html : Str) : Bool :=
  if html = [] ∨ html.length < 200 then false
  else block_signals.any (fun sig => containsSub sig (html.map toLowerC))

/-- The acceptance gate of `EnhancedHttpClient.fetch`: a strategy's
result is used (cached and returned) only when it is non-`None`,
non-empty and nota block page (`content and not
is_probable_block_page(content)`). -/
def fetchAccepts (content : Option Str) : Bool :=
  match content with
  | some c => c ≠ [] && !is_probable_block_page c
  | none => false

end RS

/-- C7 counterexample: the 13-character body `"access denied"` contains
a known bot-challenge phrase and is far shorter than 200 characters,
yet `is_probable_block_page` returns `false` (short bodies are *never*
classified as block pages) and the fetch gate accepts the body. -/
theorem C7_counterexample :
    "access denied".toList.length < 200
    ∧ containsSub "access denied".toList ("access denied".toList.map toLowerC) = true
    ∧ RS.is_probable_block_page "access denied".toList = false
    ∧ RS.fetchAccepts (some "access denied".toList) = true := by
  with_unfolding_all decide

/-- C7 (amended): bodies shorter than 200 characters are never
classified as block pages; every body of length at least 200 whose
lower-cased text contains one of the fixed challenge phrases is
classified as a block page; and any body classified as a block page is
rejected by the fetch acceptance gate rather than cached or returned. -/
theorem C7_block_page_detection :
    (∀ s : Str, s.length < 200 → RS.is_probable_block_page s = false)
    ∧ (∀ s : Str, 200 ≤ s.length
      → (∃ sig ∈ RS.block_signals, ∃ pre post, s.map toLowerC = pre ++ sig ++ post)
      → RS.is_probable_block_page s = true)
    ∧ (∀ s : Str, RS.is_probable_block_page s = true → RS.fetchAccepts (some s) = false) := by
  refine ⟨?_, ?_, ?_⟩
  · intro s h
    unfold RS.is_probable_block_page
    rw [if_pos (Or.inr h)]
  · intro s hlen ⟨sig, hsig, pre, post, hdecomp⟩
    unfold RS.is_probable_block_page
    rw [if_neg]
    · rw [List.any_eq_true]
      exact ⟨sig, hsig, (containsSub_iff sig _).mpr ⟨pre, post, hdecomp⟩⟩
    · rintro (rfl | h2)
      · simp at hlen
      · omega
  · intro s h
    simp [RS.fetchAccepts, h]

set_option maxRecDepth 100000 in
/-- Witness for `C7_block_page_detection`: a concrete 203-character
body containing `"access denied"` is classified as a block page and
rejected; a concrete short body is not classified. -/
theorem C7_block_page_detection_witness :
    RS.is_probable_block_page (List.replicate 190 'x' ++ "access denied".toList) = true
    ∧ RS.fetchAccepts (some (List.replicate 190 'x' ++ "access denied".toList)) = false
    ∧ RS.is_probable_block_page "hi".toList = false := by
  have h1 : RS.is_probable_block_page (List.replicate 190 'x' ++ "access denied".toList) = true := by
    apply C7_block_page_detection.2.1
    · with_unfolding_all decide
    · exact ⟨"access denied".toList, by with_unfolding_all decide,
        List.replicate 190 'x', [], by with_unfolding_all decide⟩
  refine ⟨h1, C7_block_page_detection.2.2 _ h1, C7_block_page_detection.1 _ (by decide)⟩

/-! ## Claim C10: `parse_local_hhmm` of createDigest.py -/

namespace CD

/-- `\b` of Python `re` between a last consumed character and the rest
of the input (end of input counts as a boundary after a word char). -/
def boundaryB (last : Char) (s : Str) : Bool :=
  match s with
  | [] => isWordC last
  | c :: _ => xor (isWordC last) (isWordC c)

/-- After the two minute digits: `\s*([AaPp][Mm])?\b` with the regex
backtracking order — consume spaces greedily (deepest level first), at
each level try the optional `AM`/`PM` group before the empty
alternative, and require a word boundary after the match.  Returns the
group-3 capture (`[]` when the group did not participate). -/
def tailAP (last : Char) (s : Str) : Option Str :=
  (match s with
   | c :: rest => if isSpaceC c then tailAP c rest else none
   | [] => none)
  <|>
  (match s with
   | a :: p :: rest =>
     if (a = 'A' ∨ a = 'a' ∨ a = 'P' ∨ a = 'p') ∧ (p = 'M' ∨ p = 'm')
        ∧ boundaryB p rest then
       some [a, p]
     else none
   | _ => none)
  <|>
  (if boundaryB last s then some [] else none)

/-- `(\d{2})` of the time regex: exactly two digits, then the tail;
returns the minute capture and the `AM`/`PM` capture. -/
def matchMM2 (s : Str) : Option (Str × Str) :=
  match s with
  | m1 :: m2 :: rest =>
    if isDigitC m1 ∧ isDigitC m2 then
      (tailAP m2 rest).map (fun ap => ([m1, m2], ap))
    else none
  | _ => none

/-- `(\d{1,2}):` with greedy backtracking: try a two-digit hour (whose
continuation must succeed), else a one-digit hour. -/
def matchHour (s : Str) : Option (Str × Str × Str) :=
  (match s with
   | d1 :: d2 :: ':' :: rest =>
     if isDigitC d1 ∧ isDigitC d2 then
       (matchMM2 rest).map (fun x => ([d1, d2], x.1, x.2))
     else none
   | _ => none)
  <|>
  (match s with
   | d1 :: ':' :: rest =>
     if isDigitC d1 then (matchMM2 rest).map (fun x => ([d1], x.1, x.2))
     else none
   | _ => none)

/-- `re.search(r"\b(\d{1,2}):(\d{2})\s*([AaPp][Mm])?\b", ·)`: leftmost
match; the opening `\b` sits before a digit (a word character), so it
holds exactly when the previous character is absent or a non-word
character. -/
def searchHM (prev : Option Char) (s : Str) : Option (Str × Str × Str) :=
  match s with
  | [] => none
  | c :: rest =>
    (if (match prev with | none => true | some pc => !isWordC pc) then
       matchHour (c :: rest)
     else none)
    <|> searchHM (some c) rest

/-- `createDigest.parse_local_hhmm`: find the time pattern, apply the
12-hour `AM`/`PM` adjustment, clamp the hour with
`max(0, min(23, hour))`, and render `f"{hour:02d}:{mm}"`.  The function
is total (never raises): `int(h)` is applied only to a non-empty digit
capture. -/
def parse_local_hhmm (time_text : Str) : Option Str :=
  if time_text = [] then none
  else
    match searchHM none time_text with
    | none => none
    | some (h, mm, ap) =>
      let hour0 := digitsToNat h
      let apU := ap.map toUpperC
      let hour1 :=
        if apU = "AM".toList then (if hour0 = 12 then 0 else hour0)
        else if apU = "PM".toList then (if hour0 = 12 then 12 else hour0 + 12)
        else hour0
      some (fmt2 (max 0 (min 23 hour1)) ++ ':' :: mm)

theorem matchMM2_shape (s : Str) (mm ap : Str) (h : matchMM2 s = some (mm, ap)) :
    mm.length = 2 ∧ mm.all isDigitC = true := by
  unfold matchMM2 at h
  split at h
  · rename_i m1 m2 rest
    split at h
    · rename_i hd
      cases htail : tailAP m2 rest with
      | none => rw [htail] at h; exact Option.noConfusion h
      | some a =>
        rw [htail] at h
        simp only [Option.map_some', Option.some.injEq, Prod.mk.injEq] at h
        obtain ⟨h5, h6⟩ := h
        subst h5
        simp [List.all_cons, hd.1, hd.2]
    · exact Option.noConfusion h
  · exact Option.noConfusion h

theorem matchHour_shape (s : Str) (h mm ap : Str)
    (hm : matchHour s = some (h, mm, ap)) :
    mm.length = 2 ∧ mm.all isDigitC = true := by
  unfold matchHour at hm
  rcases (Option.orElse_eq_some _ _ _).mp hm with h1 | ⟨hno, h2⟩
  · split at h1
    · rename_i d1 d2 rest
      split at h1
      · cases hmm : matchMM2 rest with
        | none => rw [hmm] at h1; exact Option.noConfusion h1
        | some x =>
          rw [hmm] at h1
          simp only [Option.map_some', Option.some.injEq, Prod.mk.injEq] at h1
          obtain ⟨h3, h4, h5⟩ := h1
          subst h4
          exact matchMM2_shape rest x.1 x.2 (by simpa using hmm)
      · exact Option.noConfusion h1
    · exact Option.noConfusion h1
  · split at h2
    · rename_i d1 rest
      split at h2
      · cases hmm : matchMM2 rest with
        | none => rw [hmm] at h2; exact Option.noConfusion h2
        | some x =>
          rw [hmm] at h2
          simp only [Option.map_some', Option.some.injEq, Prod.mk.injEq] at h2
          obtain ⟨h3, h4, h5⟩ := h2
          subst h4
          exact matchMM2_shape rest x.1 x.2 (by simpa using hmm)
      · exact Option.noConfusion h2
    · exact Option.noConfusion h2

theorem searchHM_shape (prev : Option Char) (s : Str) (h mm ap : Str)
    (hs : searchHM prev s = some (h, mm, ap)) :
    mm.length = 2 ∧ mm.all isDigitC = true := by
  induction s generalizing prev with
  | nil => exact Option.noConfusion hs
  | cons c rest ih =>
    unfold searchHM at hs
    rcases (Option.orElse_eq_some _ _ _).mp hs with h1 | ⟨_, h2⟩
    · split at h1
      · exact matchHour_shape _ _ _ _ h1
      · exact Option.noConfusion h1
    · exact ih (some c) h2
end CD

/-- C10: for every input string, `parse_local_hhmm` (a total function —
it never raises) returns either `None` or a string `HH:MM` whose hour
is clamped to 0–23 and whose minute part is the two captured digits; in
particular the 12-hour input `"12:05 AM"` yields `"00:05"`. -/
theorem C10_parse_local_hhmm :
    (∀ s : Str, CD.parse_local_hhmm s = none
      ∨ ∃ (h : Nat) (mm : Str), CD.parse_local_hhmm s = some (fmt2 h ++ ':' :: mm)
          ∧ h ≤ 23 ∧ mm.length = 2 ∧ mm.all isDigitC = true)
    ∧ CD.parse_local_hhmm "12:05 AM".toList = some "00:05".toList := by
  constructor
  · intro s
    unfold CD.parse_local_hhmm
    split
    · exact Or.inl rfl
    · cases hs : CD.searchHM none s with
      | none => exact Or.inl rfl
      | some x =>
        obtain ⟨h, mm, ap⟩ := x
        right
        have hshape := CD.searchHM_shape none s h mm ap hs
        refine ⟨_, mm, rfl, ?_, hshape.1, hshape.2⟩
        have h1 := Nat.min_le_left 23
          (if (ap.map toUpperC) = "AM".toList then (if digitsToNat h = 12 then 0 else digitsToNat h)
           else if (ap.map toUpperC) = "PM".toList then
             (if digitsToNat h = 12 then 12 else digitsToNat h + 12)
           else digitsToNat h)
        omega
  · with_unfolding_all rfl

/-! ## Claim C1: order-(in)dependence of the dedup-merge fold -/

/-- A bare same-keyed record with id `"a"` (richness 0). -/
def raceIdA : CD.RaceData :=
  { baseRace with id := "a".toList, course := "ascot".toList, race_time := "14:02".toList }

/-- A bare same-keyed record with id `"b"` (richness 0). -/
def raceIdB : CD.RaceData :=
  { baseRace with id := "b".toList, course := "ascot".toList, race_time := "14:04".toList }

/-- A record with live odds (richness 2) sharing the key of `raceIdB`. -/
def raceRich : CD.RaceData :=
  { baseRace with course := "ascot".toList, race_time := "14:02".toList,
                  all_runners := [⟨"r".toList, "2/1".toList⟩] }

/-- C1 counterexample: `raceIdA` and `raceIdB` share a merge key and
have equal richness (both 0) but different ids.  `_merge` breaks the
richness tie in favour of its first argument (the fold accumulator), so
folding the pair in the two arrival orders produces records with
different ids: the pairwise rule is not commutative and the fold is
order-dependent. -/
theorem C1_counterexample :
    CD._key raceIdA = CD._key raceIdB
    ∧ CD.get_richness raceIdA = CD.get_richness raceIdB
    ∧ CD._dedupe_merge [raceIdA, raceIdB] ≠ CD._dedupe_merge [raceIdB, raceIdA] := by
  refine ⟨by with_unfolding_all rfl, by with_unfolding_all rfl, ?_⟩
  with_unfolding_all decide

/-- C1 (amended): for two same-keyed records of *different* richness the
pairwise merge is commutative and the two-record fold is
order-independent; on richness ties the merge is left-biased (the
accumulator is primary), so arrival order can change the result — as
the spec's own design note 9 concedes. -/
theorem C1_merge_commutative_distinct_richness (a b : CD.RaceData)
    (hk : CD._key a = CD._key b)
    (hr : CD.get_richness a ≠ CD.get_richness b) :
    CD._merge a b = CD._merge b a
      ∧ CD._dedupe_merge [a, b] = CD._dedupe_merge [b, a] := by
  have hmerge : CD._merge a b = CD._merge b a := by
    unfold CD._merge
    rcases Nat.lt_or_ge (CD.get_richness a) (CD.get_richness b) with h | h
    · rw [if_neg (by omega), if_pos (by omega)]
    · have hlt : CD.get_richness b < CD.get_richness a :=
        lt_of_le_of_ne h (Ne.symm hr)
      rw [if_pos (by omega), if_neg (by omega)]
  refine ⟨hmerge, ?_⟩
  unfold CD._dedupe_merge
  simp only [List.foldl]
  rw [show CD.dedupeStep [] (CD._key a) a = [(CD._key a, a)] from rfl,
    show CD.dedupeStep [] (CD._key b) b = [(CD._key b, b)] from rfl]
  unfold CD.dedupeStep
  rw [if_pos hk.symm, if_pos hk, hmerge, hk]

/-- Witness for `C1_merge_commutative_distinct_richness`: a rich record
(with odds) and a bare record sharing a key merge identically in both
orders. -/
theorem C1_merge_commutative_distinct_richness_witness :
    CD._merge raceRich raceIdB = CD._merge raceIdB raceRich := by
  exact (C1_merge_commutative_distinct_richness _ _
    (by with_unfolding_all rfl) (by with_unfolding_all decide)).1

/-! ## Claim C3: the pairwise merge rule -/

theorem lookupD_append (x y : PyDict) (k : Str) :
    lookupD (x ++ y) k = (lookupD x k).or (lookupD y k) := by
  induction x with
  | nil => simp [lookupD]
  | cons kv rest ih =>
    by_cases h : kv.1 = k
    · simp [lookupD, h, Option.or]
    · simp [lookupD, h, ih]

theorem lookupD_mapOverride (d1 d2 : PyDict) (k : Str) :
    lookupD (d1.map (fun kv => (kv.1, (lookupD d2 kv.1).getD kv.2))) k
      = (lookupD d1 k).map (fun v => (lookupD d2 k).getD v) := by
  induction d1 with
  | nil => simp [lookupD]
  | cons kv rest ih =>
    by_cases h : kv.1 = k
    · subst h
      simp [lookupD]
    · simp [lookupD, h, ih]

theorem lookupD_filterNotIn (d1 d2 : PyDict) (k : Str) :
    lookupD (d2.filter (fun kv => (lookupD d1 kv.1).isNone)) k
      = if (lookupD d1 k).isNone then lookupD d2 k else none := by
  induction d2 with
  | nil => simp [lookupD]
  | cons kv rest ih =>
    by_cases h : kv.1 = k
    · subst h
      by_cases h2 : (lookupD d1 kv.1).isNone
      · simp [List.filter, h2, lookupD, ih]
      · simp [List.filter, h2, lookupD, ih]
    · by_cases h2 : (lookupD d1 kv.1).isNone
      · simp [List.filter, h2, lookupD, h, ih]
      · simp [List.filter, h2, lookupD, h, ih]

/-- `{**d1, **d2}` looks up as: `d2`'s entry if present, else `d1`'s. -/
theorem lookupD_dictUnion (d1 d2 : PyDict) (k : Str) :
    lookupD (dictUnion d1 d2) k = (lookupD d2 k).or (lookupD d1 k) := by
  unfold dictUnion
  rw [lookupD_append, lookupD_mapOverride, lookupD_filterNotIn]
  cases h1 : lookupD d1 k with
  | none => cases h2 : lookupD d2 k <;> simp [Option.or]
  | some v => cases h2 : lookupD d2 k <;> simp [Option.or, Option.getD]

namespace CD

/-- The primary record of `_merge a b`: higher richness wins, the first
argument wins ties. -/
def primOf (a b : RaceData) : RaceData :=
  if get_richness b ≤ get_richness a then a else b

/-- The secondary record of `_merge a b`. -/
def secOf (a b : RaceData) : RaceData :=
  if get_richness b ≤ get_richness a then b else a

/-- The participant list `_merge` keeps: whichever is longer, primary's
on ties. -/
def chosenRunners (p s : RaceData) : List Runner :=
  if s.all_runners.length ≤ p.all_runners.length then p.all_runners else s.all_runners

theorem merge_eq_mergePS (a b : RaceData) :
    _merge a b = mergePS (primOf a b) (secOf a b) := by
  unfold _merge primOf secOf
  by_cases h : get_richness b ≤ get_richness a <;> simp [h]

end CD

/-- A same-keyed bare record whose id is empty (riches 0), making the
tie-breaking primary of a merge carry an empty id. -/
def raceNoId : CD.RaceData :=
  { baseRace with course := "ascot".toList, race_time := "14:02".toList }

/-- C3 counterexample: the `id` field does *not* follow the claimed
"primary's value falling back to secondary's when primary's is empty"
rule: `_merge` always copies the primary's id (`id=primary.id` with no
`or` fallback), so when the primary's id is empty the merged id stays
empty instead of falling back to the secondary's. -/
theorem C3_counterexample :
    CD._key raceNoId = CD._key raceIdB
    ∧ CD.get_richness raceIdB ≤ CD.get_richness raceNoId
    ∧ raceNoId.id = []
    ∧ raceIdB.id = "b".toList
    ∧ (CD._merge raceNoId raceIdB).id
        ≠ (if raceNoId.id = [] then raceIdB.id else raceNoId.id) := by
  with_unfolding_all decide

/-- C3 (amended): for two records sharing a merge key, with
richness(r) = 2 when any participant has non-empty odds text, else 1
when the participant count is positive, else 0, the higher-richness
record is primary (first argument on ties); the merged record copies
the primary's id and UTC instant unconditionally, every other scalar
field takes the primary's value falling back to the secondary's when
the primary's is empty (Python falsiness: `""`/`None`/`0`);
participant-count is the max; the participant list is whichever is
longer (primary's on ties); the favorite/runner-up pair is primary's
when the primary's favorite is present, else recomputed by sorting the
chosen participant list by ascending fractional odds (unchanged when
that list is empty); and the attribution map looks up as the
secondary's entries overlaid by the primary's, the primary winning
collisions. -/
theorem C3_pairwise_merge_rule (a b : CD.RaceData) (hk : CD._key a = CD._key b) :
    (∀ r : CD.RaceData, CD.get_richness r
      = if ∃ x ∈ r.all_runners, x.odds_str ≠ [] then 2
        else if 0 < r.field_size then 1 else 0)
    ∧ CD.get_richness (CD.secOf a b) ≤ CD.get_richness (CD.primOf a b)
    ∧ (CD._merge a b).id = (CD.primOf a b).id
    ∧ (CD._merge a b).utc_datetime = (CD.primOf a b).utc_datetime
    ∧ (CD._merge a b).course = orStr (CD.primOf a b).course (CD.secOf a b).course
    ∧ (CD._merge a b).race_time = orStr (CD.primOf a b).race_time (CD.secOf a b).race_time
    ∧ (CD._merge a b).local_time = orStr (CD.primOf a b).local_time (CD.secOf a b).local_time
    ∧ (CD._merge a b).timezone_name
        = orStr (CD.primOf a b).timezone_name (CD.secOf a b).timezone_name
    ∧ (CD._merge a b).country = orStr (CD.primOf a b).country (CD.secOf a b).country
    ∧ (CD._merge a b).discipline = orStr (CD.primOf a b).discipline (CD.secOf a b).discipline
    ∧ (CD._merge a b).race_number
        = orOptInt (CD.primOf a b).race_number (CD.secOf a b).race_number
    ∧ (CD._merge a b).grade = orOptStr (CD.primOf a b).grade (CD.secOf a b).grade
    ∧ (CD._merge a b).distance = orOptStr (CD.primOf a b).distance (CD.secOf a b).distance
    ∧ (CD._merge a b).surface = orOptStr (CD.primOf a b).surface (CD.secOf a b).surface
    ∧ (CD._merge a b).race_url = orStr (CD.primOf a b).race_url (CD.secOf a b).race_url
    ∧ (CD._merge a b).form_guide_url
        = orOptStr (CD.primOf a b).form_guide_url (CD.secOf a b).form_guide_url
    ∧ (CD._merge a b).field_size = max (CD.primOf a b).field_size (CD.secOf a b).field_size
    ∧ (CD._merge a b).all_runners = CD.chosenRunners (CD.primOf a b) (CD.secOf a b)
    ∧ (∀ f, (CD.primOf a b).favorite = some f →
        (CD._merge a b).favorite = some f
        ∧ (CD._merge a b).second_favorite = (CD.primOf a b).second_favorite)
    ∧ ((CD.primOf a b).favorite = none
        → CD.chosenRunners (CD.primOf a b) (CD.secOf a b) ≠ []
        → (CD._merge a b).favorite
            = (CD.sortByOdds (CD.chosenRunners (CD.primOf a b) (CD.secOf a b))).head?
          ∧ (CD._merge a b).second_favorite
            = (CD.sortByOdds (CD.chosenRunners (CD.primOf a b) (CD.secOf a b)))[1]?)
    ∧ ((CD.primOf a b).favorite = none
        → CD.chosenRunners (CD.primOf a b) (CD.secOf a b) = []
        → (CD._merge a b).favorite = none
          ∧ (CD._merge a b).second_favorite = (CD.primOf a b).second_favorite)
    ∧ (∀ k : Str, lookupD (CD._merge a b).data_sources k
        = (lookupD (CD.primOf a b).data_sources k).or
            (lookupD (CD.secOf a b).data_sources k)) := by
  rw [CD.merge_eq_mergePS a b]
  set p := CD.primOf a b with hp
  set s := CD.secOf a b with hs
  refine ⟨?_, ?_, rfl, rfl, rfl, rfl, rfl, rfl, rfl, rfl, rfl, rfl, rfl, rfl, rfl, rfl,
    rfl, ?_, ?_, ?_, ?_, ?_⟩
  · intro r
    unfold CD.get_richness
    by_cases h : ∃ x ∈ r.all_runners, x.odds_str ≠ []
    · rw [if_pos h, if_pos (by simpa [List.any_eq_true] using h)]
    · rw [if_neg h, if_neg (by simpa [List.any_eq_true] using h)]
  · rw [hp, hs]
    unfold CD.primOf CD.secOf
    by_cases h : CD.get_richness b ≤ CD.get_richness a
    · simpa [h] using h
    · simp only [if_neg h]
      omega
  · show (CD.mergePS p s).all_runners = CD.chosenRunners p s
    unfold CD.mergePS CD.chosenRunners
    rfl
  · intro f hf
    constructor
    · show (CD.mergePS p s).favorite = some f
      unfold CD.mergePS
      simp only [hf]
    · show (CD.mergePS p s).second_favorite = p.second_favorite
      unfold CD.mergePS
      simp only [hf]
  · intro hf hne
    have hne' : (if s.all_runners.length ≤ p.all_runners.length then p.all_runners
        else s.all_runners) ≠ [] := hne
    constructor
    · show (CD.mergePS p s).favorite = _
      unfold CD.mergePS
      simp only [hf, if_pos hne']
      rfl
    · show (CD.mergePS p s).second_favorite = _
      unfold CD.mergePS
      simp only [hf, if_pos hne']
      rfl
  · intro hf he
    have he' : (if s.all_runners.length ≤ p.all_runners.length then p.all_runners
        else s.all_runners) = [] := he
    constructor
    · show (CD.mergePS p s).favorite = none
      unfold CD.mergePS
      simp [hf, he']
    · show (CD.mergePS p s).second_favorite = p.second_favorite
      unfold CD.mergePS
      simp [hf, he']
  · intro k
    show lookupD (dictUnion s.data_sources p.data_sources) k = _
    rw [lookupD_dictUnion]

/-- Witness for `C3_pairwise_merge_rule`: applied to the concrete
same-keyed pair `raceRich` (richness 2, primary) and `raceIdB`
(richness 0): the merged id is the primary's and the participant list
is the longer one. -/
theorem C3_pairwise_merge_rule_witness :
    (CD._merge raceRich raceIdB).id = (CD.primOf raceRich raceIdB).id
    ∧ (CD._merge raceRich raceIdB).all_runners
      = CD.chosenRunners (CD.primOf raceRich raceIdB) (CD.secOf raceRich raceIdB) := by
  have h := C3_pairwise_merge_rule raceRich raceIdB (by with_unfolding_all rfl)
  exact ⟨h.2.2.1, h.2.2.2.2.2.2.2.2.2.2.2.2.2.2.2.2.2.1⟩

/-! ## Claim C5: idempotence of dedup-merge -/

/-- First record of the C5 counterexample: empty course, unparseable
race time containing the `|` key separator. -/
def crx1 : CD.RaceData :=
  { baseRace with id := "1".toList, race_time := "x|2021-03-04|y".toList }

/-- Second record of the C5 counterexample: its course text embeds a
date-and-pipe pattern so that its key collides with `crx1`'s. -/
def crx2 : CD.RaceData :=
  { baseRace with id := "2".toList, course := "|2024-05-01|x".toList,
                  utc_datetime := ⟨2021, 3, 4, 0, 0⟩, race_time := "y".toList }

/-- Third record of the C5 counterexample: keyed like the record that
merging `crx1` and `crx2` produces. -/
def crx3 : CD.RaceData :=
  { baseRace with id := "3".toList,
                  race_time := "x|2024-05-01|x|2021-03-04|y".toList }

set_option maxRecDepth 100000 in
/-- C5 counterexample: `crx1` and `crx2` share a merge key, but the
record their merge produces carries a *different* key (it mixes the
primary's raw time with the secondary's course), which collides with
`crx3`'s key only on the second pass.  Re-running `_dedupe_merge` on
its own output therefore merges further: the first pass returns two
records, the second only one — dedup-merge is not idempotent. -/
theorem C5_counterexample :
    CD._key crx1 = CD._key crx2
    ∧ CD._key crx3 ≠ CD._key crx1
    ∧ CD._key (CD._merge crx1 crx2) = CD._key crx3
    ∧ CD._dedupe_merge [crx1, crx2, crx3] ≠ [crx1, crx2, crx3]
    ∧ (CD._dedupe_merge [crx1, crx2, crx3]).length = 2
    ∧ (CD._dedupe_merge (CD._dedupe_merge [crx1, crx2, crx3])).length = 1
    ∧ CD._dedupe_merge (CD._dedupe_merge [crx1, crx2, crx3])
        ≠ CD._dedupe_merge [crx1, crx2, crx3] := by
  with_unfolding_all decide

/-- A record is key-clean when neither its normalized course name nor
its bucketed race-time text contains the `|` key separator (true of
every real venue name and `HH:MM` time). -/
def keyClean (r : CD.RaceData) : Prop :=
  '|' ∉ CD._normalize_course_name r.course ∧ '|' ∉ CD.floor5 r.race_time

theorem char48_ne_pipe (x : Nat) (hx : x < 10) : Char.ofNat (48 + x) ≠ '|' := by
  interval_cases x <;> decide

theorem pipe_not_mem_fmt2 (n : Nat) : '|' ∉ fmt2 n := by
  unfold fmt2
  intro h
  rcases List.mem_cons.mp h with h1 | h1
  · exact char48_ne_pipe _ (Nat.mod_lt _ (by norm_num)) h1.symm
  · rcases List.mem_cons.mp h1 with h2 | h2
    · exact char48_ne_pipe _ (Nat.mod_lt _ (by norm_num)) h2.symm
    · exact List.not_mem_nil _ h2

theorem pipe_not_mem_fmt4 (n : Nat) : '|' ∉ fmt4 n := by
  unfold fmt4
  intro h
  simp only [List.mem_cons, List.not_mem_nil, or_false] at h
  rcases h with h1 | h1 | h1 | h1 <;>
    exact char48_ne_pipe _ (Nat.mod_lt _ (by norm_num)) h1.symm

theorem pipe_not_mem_dateStr (dt : PyDateTime) : '|' ∉ dateStr dt := by
  intro h
  have hA := pipe_not_mem_fmt4 dt.year
  have hB := pipe_not_mem_fmt2 dt.month
  have hC := pipe_not_mem_fmt2 dt.day
  have hd : ('|' : Char) ≠ '-' := by decide
  unfold dateStr at h
  simp only [List.mem_append, List.mem_cons] at h
  tauto

/-- `_key` re-associated to expose its three components. -/
theorem key_shape (r : CD.RaceData) :
    CD._key r = CD._normalize_course_name r.course
      ++ '|' :: (dateStr r.utc_datetime ++ '|' :: CD.floor5 r.race_time) := by
  unfold CD._key
  simp [List.append_assoc]

/-- Splitting a `|`-join whose left component is `|`-free is unique. -/
theorem pipeSplit (x1 x2 r1 r2 : Str) (h1 : '|' ∉ x1) (h2 : '|' ∉ x2)
    (heq : x1 ++ '|' :: r1 = x2 ++ '|' :: r2) : x1 = x2 ∧ r1 = r2 := by
  induction x1 generalizing x2 with
  | nil =>
    cases x2 with
    | nil => simpa using heq
    | cons c cs =>
      simp only [List.nil_append, List.cons_append, List.cons.injEq] at heq
      exact absurd (heq.1.symm ▸ List.mem_cons_self c cs) (heq.1 ▸ h2)
  | cons c cs ih =>
    cases x2 with
    | nil =>
      simp only [List.cons_append, List.nil_append, List.cons.injEq] at heq
      exact absurd (heq.1 ▸ List.mem_cons_self c cs) (heq.1.symm ▸ h1)
    | cons d ds =>
      simp only [List.cons_append, List.cons.injEq] at heq
      obtain ⟨rfl, heq2⟩ := heq
      have := ih ds (fun hm => h1 (List.mem_cons_of_mem _ hm))
        (fun hm => h2 (List.mem_cons_of_mem _ hm)) heq2
      exact ⟨by rw [this.1], this.2⟩

/-- On key-clean records, equal keys force equal key components. -/
theorem key_components (a b : CD.RaceData) (ha : keyClean a) (hb : keyClean b)
    (hk : CD._key a = CD._key b) :
    CD._normalize_course_name a.course = CD._normalize_course_name b.course
    ∧ dateStr a.utc_datetime = dateStr b.utc_datetime
    ∧ CD.floor5 a.race_time = CD.floor5 b.race_time := by
  rw [key_shape, key_shape] at hk
  obtain ⟨hc, hrest⟩ := pipeSplit _ _ _ _ ha.1 hb.1 hk
  obtain ⟨hd, ht⟩ := pipeSplit _ _ _ _ (pipe_not_mem_dateStr _) (pipe_not_mem_dateStr _) hrest
  exact ⟨hc, hd, ht⟩

/-- When two key-clean records share a key, their merge keeps that key
and stays key-clean. -/
theorem merge_key_stable (a b : CD.RaceData) (ha : keyClean a) (hb : keyClean b)
    (hk : CD._key a = CD._key b) :
    CD._key (CD._merge a b) = CD._key a ∧ keyClean (CD._merge a b) := by
  obtain ⟨hc, hd, ht⟩ := key_components a b ha hb hk
  rw [CD.merge_eq_mergePS a b]
  have hps : (CD.primOf a b = a ∧ CD.secOf a b = b)
      ∨ (CD.primOf a b = b ∧ CD.secOf a b = a) := by
    unfold CD.primOf CD.secOf
    by_cases h : CD.get_richness b ≤ CD.get_richness a
    · exact Or.inl ⟨if_pos h, if_pos h⟩
    · exact Or.inr ⟨if_neg h, if_neg h⟩
  set p := CD.primOf a b
  set s := CD.secOf a b
  have hcourse : (CD.mergePS p s).course = orStr p.course s.course := rfl
  have hrt : (CD.mergePS p s).race_time = orStr p.race_time s.race_time := rfl
  have hutc : (CD.mergePS p s).utc_datetime = p.utc_datetime := rfl
  have hnormp : CD._normalize_course_name p.course = CD._normalize_course_name a.course := by
    rcases hps with ⟨hp, _⟩ | ⟨hp, _⟩
    · rw [hp]
    · rw [hp, ← hc]
  have hnorms : CD._normalize_course_name s.course = CD._normalize_course_name a.course := by
    rcases hps with ⟨_, hsx⟩ | ⟨_, hsx⟩
    · rw [hsx, ← hc]
    · rw [hsx]
  have hnormor : CD._normalize_course_name (orStr p.course s.course)
      = CD._normalize_course_name a.course := by
    unfold orStr
    split
    · exact hnorms
    · exact hnormp
  have hdp : dateStr p.utc_datetime = dateStr a.utc_datetime := by
    rcases hps with ⟨hp, _⟩ | ⟨hp, _⟩
    · rw [hp]
    · rw [hp, ← hd]
  have hfp : CD.floor5 p.race_time = CD.floor5 a.race_time := by
    rcases hps with ⟨hp, _⟩ | ⟨hp, _⟩
    · rw [hp]
    · rw [hp, ← ht]
  have hfs : CD.floor5 s.race_time = CD.floor5 a.race_time := by
    rcases hps with ⟨_, hsx⟩ | ⟨_, hsx⟩
    · rw [hsx, ← ht]
    · rw [hsx]
  have hfor : CD.floor5 (orStr p.race_time s.race_time) = CD.floor5 a.race_time := by
    unfold orStr
    split
    · exact hfs
    · exact hfp
  refine ⟨?_, ?_, ?_⟩
  · rw [key_shape, key_shape, hcourse, hrt, hutc, hnormor, hdp, hfor]
  · show '|' ∉ CD._normalize_course_name (CD.mergePS p s).course
    rw [hcourse, hnormor]
    exact ha.1
  · show '|' ∉ CD.floor5 (CD.mergePS p s).race_time
    rw [hrt, hfor]
    exact ha.2

/-- The invariant of the `_dedupe_merge` fold state: every stored record
sits under its own key and is key-clean, and the keys are distinct. -/
def dedupInv (m : List (Str × CD.RaceData)) : Prop :=
  (∀ kv ∈ m, CD._key kv.2 = kv.1 ∧ keyClean kv.2) ∧ (m.map Prod.fst).Nodup

theorem dedupeStep_fresh (m : List (Str × CD.RaceData)) (k : Str) (r : CD.RaceData)
    (h : k ∉ m.map Prod.fst) : CD.dedupeStep m k r = m ++ [(k, r)] := by
  induction m with
  | nil => rfl
  | cons kv rest ih =>
    simp only [List.map_cons, List.mem_cons] at h
    push_neg at h
    unfold CD.dedupeStep
    rw [if_neg (Ne.symm h.1), ih h.2]
    rfl

theorem dedupeStep_keys (m : List (Str × CD.RaceData)) (k : Str) (r : CD.RaceData)
    (x : Str) (hx : x ∈ (CD.dedupeStep m k r).map Prod.fst) :
    x ∈ m.map Prod.fst ∨ x = k := by
  induction m with
  | nil =>
    simp only [CD.dedupeStep, List.map_cons, List.map_nil, List.mem_singleton] at hx
    exact Or.inr hx
  | cons kv rest ih =>
    unfold CD.dedupeStep at hx
    split at hx
    · simp only [List.map_cons, List.mem_cons] at hx
      rcases hx with h | h
      · exact Or.inl (by rw [List.map_cons]; exact List.mem_cons.mpr (Or.inl h))
      · exact Or.inl (by rw [List.map_cons]; exact List.mem_cons.mpr (Or.inr h))
    · simp only [List.map_cons, List.mem_cons] at hx
      rcases hx with h | h
      · exact Or.inl (by rw [List.map_cons]; exact List.mem_cons.mpr (Or.inl h))
      · rcases ih h with h2 | h2
        · exact Or.inl (by rw [List.map_cons]; exact List.mem_cons.mpr (Or.inr h2))
        · exact Or.inr h2

theorem dedupeStep_inv (m : List (Str × CD.RaceData)) (r : CD.RaceData)
    (hm : dedupInv m) (hr : keyClean r) :
    dedupInv (CD.dedupeStep m (CD._key r) r) := by
  induction m with
  | nil =>
    refine ⟨?_, by simp [CD.dedupeStep]⟩
    intro kv hkv
    simp only [CD.dedupeStep, List.mem_singleton] at hkv
    subst hkv
    exact ⟨rfl, hr⟩
  | cons kv0 rest ih =>
    obtain ⟨hvals, hnodup⟩ := hm
    simp only [List.map_cons, List.nodup_cons] at hnodup
    unfold CD.dedupeStep
    split
    · rename_i hkeq
      have hv0 := hvals kv0 (List.mem_cons_self _ _)
      have hkey : CD._key kv0.2 = CD._key r := by rw [hv0.1, hkeq]
      obtain ⟨hks, hclean⟩ := merge_key_stable kv0.2 r hv0.2 hr hkey
      refine ⟨?_, by rw [List.map_cons]; exact List.nodup_cons.mpr ⟨hnodup.1, hnodup.2⟩⟩
      intro kv hkv
      rcases List.mem_cons.mp hkv with h | h
      · subst h
        exact ⟨by rw [hks, hv0.1], hclean⟩
      · exact hvals kv (List.mem_cons_of_mem _ h)
    · rename_i hkne
      have hrest : dedupInv rest :=
        ⟨fun kv hkv => hvals kv (List.mem_cons_of_mem _ hkv), hnodup.2⟩
      obtain ⟨ih1, ih2⟩ := ih hrest
      refine ⟨?_, ?_⟩
      · intro kv hkv
        rcases List.mem_cons.mp hkv with h | h
        · subst h
          exact hvals kv0 (List.mem_cons_self _ _)
        · exact ih1 kv h
      · simp only [List.map_cons, List.nodup_cons]
        refine ⟨?_, ih2⟩
        intro hmem
        rcases dedupeStep_keys rest (CD._key r) r kv0.1 hmem with h | h
        · exact hnodup.1 h
        · exact hkne h

theorem dedupe_fold_inv (races : List CD.RaceData) (m : List (Str × CD.RaceData))
    (hm : dedupInv m) (hclean : ∀ r ∈ races, keyClean r) :
    dedupInv (races.foldl (fun m r => CD.dedupeStep m (CD._key r) r) m) := by
  induction races generalizing m with
  | nil => exact hm
  | cons r rest ih =>
    simp only [List.foldl_cons]
    exact ih (CD.dedupeStep m (CD._key r) r)
      (dedupeStep_inv m r hm (hclean r (List.mem_cons_self _ _)))
      (fun x hx => hclean x (List.mem_cons_of_mem _ hx))

theorem dedupe_fold_fresh (races : List CD.RaceData) (m : List (Str × CD.RaceData))
    (h : ((m.map Prod.fst) ++ races.map CD._key).Nodup) :
    races.foldl (fun m r => CD.dedupeStep m (CD._key r) r) m
      = m ++ races.map (fun r => (CD._key r, r)) := by
  induction races generalizing m with
  | nil => simp
  | cons r rest ih =>
    simp only [List.foldl_cons]
    simp only [List.map_cons] at h
    have hfresh : CD._key r ∉ m.map Prod.fst := by
      intro hmem
      exact (List.nodup_append.mp h).2.2 hmem (List.mem_cons_self _ _)
    rw [dedupeStep_fresh m (CD._key r) r hfresh]
    have hnext : (((m ++ [(CD._key r, r)]).map Prod.fst) ++ rest.map CD._key).Nodup := by
      rw [List.map_append]
      simp only [List.map_cons, List.map_nil]
      rw [List.append_assoc]
      simpa using h
    rw [ih (m ++ [(CD._key r, r)]) hnext]
    simp

/-- C5 (amended): `_dedupe_merge` is idempotent on every list of
key-clean records — records whose normalized course name and bucketed
race-time text are free of the `|` key separator (true of all real
venue names and `HH:MM` times).  Without that restriction a merged
record's key can drift and a second pass can merge further
(`C5_counterexample`). -/
theorem C5_dedupe_idempotent (races : List CD.RaceData)
    (hclean : ∀ r ∈ races, keyClean r) :
    CD._dedupe_merge (CD._dedupe_merge races) = CD._dedupe_merge races := by
  have hinv : dedupInv (races.foldl (fun m r => CD.dedupeStep m (CD._key r) r) []) :=
    dedupe_fold_inv races [] ⟨by simp, by simp⟩ hclean
  set M := races.foldl (fun m r => CD.dedupeStep m (CD._key r) r) [] with hM
  have hout : CD._dedupe_merge races = M.map Prod.snd := rfl
  have hkeys : (M.map Prod.snd).map CD._key = M.map Prod.fst := by
    rw [List.map_map]
    exact List.map_congr_left (fun kv hkv => (hinv.1 kv hkv).1)
  have hnodup : ((M.map Prod.snd).map CD._key).Nodup := by
    rw [hkeys]
    exact hinv.2
  rw [hout]
  show (((M.map Prod.snd).foldl (fun m r => CD.dedupeStep m (CD._key r) r) []).map Prod.snd)
    = M.map Prod.snd
  rw [dedupe_fold_fresh (M.map Prod.snd) [] (by simpa using hnodup)]
  simp

/-- Witness for `C5_dedupe_idempotent`: a concrete clean three-record
list (two of which merge) on which a second dedup pass is a no-op. -/
theorem C5_dedupe_idempotent_witness :
    CD._dedupe_merge (CD._dedupe_merge [raceIdA, raceIdB, raceRich])
      = CD._dedupe_merge [raceIdA, raceIdB, raceRich] := by
  apply C5_dedupe_idempotent
  intro r hr
  rcases List.mem_cons.mp hr with h | hr2
  · subst h
    exact ⟨by with_unfolding_all decide, by with_unfolding_all decide⟩
  rcases List.mem_cons.mp hr2 with h | hr3
  · subst h
    exact ⟨by with_unfolding_all decide, by with_unfolding_all decide⟩
  rcases List.mem_cons.mp hr3 with h | hr4
  · subst h
    exact ⟨by with_unfolding_all decide, by with_unfolding_all decide⟩
  · exact absurd hr4 (List.not_mem_nil r)

/-! ## Claim C6: per-source failure isolation in fetch_all_races -/

/-- Lookup in an insertion-ordered dict with arbitrary values. -/
def lookupV {α : Type} (m : List (Str × α)) (k : Str) : Option α :=
  match m with
  | [] => none
  | (k', v) :: rest => if k' = k then some v else lookupV rest k

/-- `d[k] = v` on an insertion-ordered dict: update in place, append a
fresh key at the end. -/
def dictSetV {α : Type} (m : List (Str × α)) (k : Str) (v : α) : List (Str × α) :=
  match m with
  | [] => [(k, v)]
  | (k', v') :: rest => if k' = k then (k', v) :: rest else (k', v') :: dictSetV rest k v

namespace RS

/-- `RacingDataAggregator._completeness_score`. -/
def _completeness_score (race : RaceData) : Nat :=
  (if race.all_runners ≠ [] then race.all_runners.length * 2 else 0)
    + (if race.favorite.isSome then 5 else 0)
    + (if race.second_favorite.isSome then 3 else 0)
    + (if pyTruthyOptStr race.form_guide_url then 2 else 0)
    + (if 1 < race.data_sources.length then 3 else 0)

/-- `RacingDataAggregator._is_more_complete`. -/
def _is_more_complete (race1 race2 : RaceData) : Bool :=
  _completeness_score race2 < _completeness_score race1

/-- One iteration of `_deduplicate_races`: insert under `race.id`; on a
collision keep the more complete record and merge the attribution
dicts (`dict.update`: the updating dict's entries win). -/
def dedupStepRS (m : List (Str × RaceData)) (race : RaceData) : List (Str × RaceData) :=
  match lookupV m race.id with
  | none => m ++ [(race.id, race)]
  | some existing =>
    if _is_more_complete race existing then
      dictSetV m race.id
        { race with data_sources := dictUnion race.data_sources existing.data_sources }
    else
      dictSetV m race.id
        { existing with data_sources := dictUnion existing.data_sources race.data_sources }

/-- `RacingDataAggregator._deduplicate_races`: fold into a dict keyed
by `race.id`, then `list(unique_races.values())`. -/
def _deduplicate_races (races : List RaceData) : List RaceData :=
  (races.foldl dedupStepRS []).map Prod.snd

/-- What a registered source does during a run: either raises an
exception (type and message) or returns records plus accumulated
per-page `SourceError`s. -/
inductive SourceOutcome where
  | raised (error_type error_message : Str)
  | ok (races : List RaceData) (errors : List SourceError)

/-- `RacingDataAggregator._fetch_from_source`: every exception from a
source is caught here and converted into zero records plus one
`SourceError` attributed to that source, so sibling sources are never
affected and nothing propagates to the `asyncio.gather` call (whose
`isinstance(result, Exception)` branch is therefore unreachable). -/
def _fetch_from_source (now : PyDateTime) (name : Str) (outcome : SourceOutcome) :
    List RaceData × List SourceError :=
  match outcome with
  | .raised ty msg =>
    ([], [{ source_name := name, error_message := msg, error_type := ty,
            timestamp := now, url := none }])
  | .ok races errors => (races, errors)

/-- `RacingDataAggregator.fetch_all_races`, with the concurrent
`asyncio.gather` modelled as the list of per-source results (the fold
is the result-collection loop): collect races, per-source counts and
errors, deduplicate, score, and sort by score descending (Python's
stable `sorted(..., reverse=True)`, modelled by a stable insertion
sort on the non-strict descending order). -/
def fetch_all_races (now : PyDateTime) (sources : List (Str × SourceOutcome)) :
    List RaceData × ScanStatistics :=
  let results := sources.map (fun sp => (sp.1, _fetch_from_source now sp.1 sp.2))
  let acc := results.foldl
    (fun acc nr => (acc.1 ++ nr.2.1, dictSetV acc.2.1 nr.1 nr.2.1.length, acc.2.2 ++ nr.2.2))
    (([], [], []) : List RaceData × List (Str × Nat) × List SourceError)
  let deduped := _deduplicate_races acc.1
  let scored := deduped.map (fun r => { r with value_score := calculate_score r })
  let sorted := scored.insertionSort (fun x y => y.value_score ≤ x.value_score)
  (sorted,
   { total_races_found := acc.1.length
     races_after_dedup := deduped.length
     per_source_counts := acc.2.1
     source_errors := acc.2.2 })

end RS

theorem lookupV_none {α : Type} (m : List (Str × α)) (k : Str)
    (h : k ∉ m.map Prod.fst) : lookupV m k = none := by
  induction m with
  | nil => rfl
  | cons kv rest ih =>
    simp only [List.map_cons, List.mem_cons] at h
    push_neg at h
    unfold lookupV
    rw [if_neg (Ne.symm h.1)]
    exact ih h.2

theorem dedupRS_fold_fresh (races : List RS.RaceData) (m : List (Str × RS.RaceData))
    (h : ((m.map Prod.fst) ++ races.map RS.RaceData.id).Nodup) :
    races.foldl RS.dedupStepRS m = m ++ races.map (fun r => (r.id, r)) := by
  induction races generalizing m with
  | nil => simp
  | cons r rest ih =>
    simp only [List.foldl_cons, List.map_cons] at h ⊢
    have hfresh : r.id ∉ m.map Prod.fst := by
      intro hmem
      exact (List.nodup_append.mp h).2.2 hmem (List.mem_cons_self _ _)
    have hstep : RS.dedupStepRS m r = m ++ [(r.id, r)] := by
      unfold RS.dedupStepRS
      rw [lookupV_none m r.id hfresh]
    rw [hstep]
    have hnext : (((m ++ [(r.id, r)]).map Prod.fst) ++ rest.map RS.RaceData.id).Nodup := by
      rw [List.map_append]
      simp only [List.map_cons, List.map_nil]
      rw [List.append_assoc]
      simpa using h
    rw [ih (m ++ [(r.id, r)]) hnext]
    simp

/-- On records with pairwise-distinct ids, `_deduplicate_races` keeps
every record unchanged, in order. -/
theorem dedupRS_distinct (races : List RS.RaceData)
    (h : (races.map RS.RaceData.id).Nodup) :
    RS._deduplicate_races races = races := by
  unfold RS._deduplicate_races
  rw [dedupRS_fold_fresh races [] (by simpa using h)]
  rw [List.nil_append, List.map_map]
  calc List.map (Prod.snd ∘ fun r => (r.id, r)) races
      = List.map id races := List.map_congr_left (fun r _ => rfl)
    _ = races := List.map_id races

/-- C6: per-source failure isolation.  When source `A` raises and
source `B` returns three valid (distinct-id) records, `fetch_all_races`
returns exactly those three records (scored, in descending-score
order), records one `SourceError` attributed to `A`, and reports
per-source counts `A ↦ 0`, `B ↦ 3`; the failing source neither aborts
the run nor affects its sibling (the per-source results are independent
entries of the gathered result list). -/
theorem C6_failure_isolation (now : PyDateTime) (ty msg : Str) (b1 b2 b3 : RS.RaceData)
    (h12 : b1.id ≠ b2.id) (h13 : b1.id ≠ b3.id) (h23 : b2.id ≠ b3.id) :
    (RS.fetch_all_races now [("A".toList, RS.SourceOutcome.raised ty msg),
        ("B".toList, RS.SourceOutcome.ok [b1, b2, b3] [])]).1.Perm
      [{ b1 with value_score := RS.calculate_score b1 },
       { b2 with value_score := RS.calculate_score b2 },
       { b3 with value_score := RS.calculate_score b3 }]
    ∧ (RS.fetch_all_races now [("A".toList, RS.SourceOutcome.raised ty msg),
        ("B".toList, RS.SourceOutcome.ok [b1, b2, b3] [])]).2.source_errors
      = [{ source_name := "A".toList, error_message := msg, error_type := ty,
           timestamp := now, url := none }]
    ∧ lookupV (RS.fetch_all_races now [("A".toList, RS.SourceOutcome.raised ty msg),
        ("B".toList, RS.SourceOutcome.ok [b1, b2, b3] [])]).2.per_source_counts
        "A".toList = some 0
    ∧ lookupV (RS.fetch_all_races now [("A".toList, RS.SourceOutcome.raised ty msg),
        ("B".toList, RS.SourceOutcome.ok [b1, b2, b3] [])]).2.per_source_counts
        "B".toList = some 3
    ∧ (RS.fetch_all_races now [("A".toList, RS.SourceOutcome.raised ty msg),
        ("B".toList, RS.SourceOutcome.ok [b1, b2, b3] [])]).2.total_races_found = 3
    ∧ (RS.fetch_all_races now [("A".toList, RS.SourceOutcome.raised ty msg),
        ("B".toList, RS.SourceOutcome.ok [b1, b2, b3] [])]).2.races_after_dedup = 3 := by
  have hids : ([b1, b2, b3].map RS.RaceData.id).Nodup := by
    simp [List.nodup_cons, h12, h13, h23]
  have hded : RS._deduplicate_races [b1, b2, b3] = [b1, b2, b3] := dedupRS_distinct _ hids
  refine ⟨?_, by with_unfolding_all rfl, by with_unfolding_all rfl,
    by with_unfolding_all rfl, by with_unfolding_all rfl, ?_⟩
  · have hfst : (RS.fetch_all_races now [("A".toList, RS.SourceOutcome.raised ty msg),
        ("B".toList, RS.SourceOutcome.ok [b1, b2, b3] [])]).1
      = ((RS._deduplicate_races [b1, b2, b3]).map
          (fun r => { r with value_score := RS.calculate_score r })).insertionSort
          (fun x y => y.value_score ≤ x.value_score) := rfl
    rw [hfst, hded]
    exact List.perm_insertionSort _ _
  · have hsnd : (RS.fetch_all_races now [("A".toList, RS.SourceOutcome.raised ty msg),
        ("B".toList, RS.SourceOutcome.ok [b1, b2, b3] [])]).2.races_after_dedup
      = (RS._deduplicate_races [b1, b2, b3]).length := rfl
    rw [hsnd, hded]
    rfl

/-- A minimal valid `racing_scanner` record with the given id. -/
def bRS (n : Str) : RS.RaceData :=
  { id := n, course := "c".toList, race_time := "12:00".toList,
    utc_datetime := ⟨2024, 5, 1, 12, 0⟩, local_time := [], timezone_name := [],
    field_size := 5, country := [], discipline := [] }

/-- Witness for `C6_failure_isolation`: the scenario run with three
concrete records of ids `"1"`, `"2"`, `"3"`. -/
theorem C6_failure_isolation_witness :
    (RS.fetch_all_races ⟨2024, 5, 1, 0, 0⟩
        [("A".toList, RS.SourceOutcome.raised "RuntimeError".toList "boom".toList),
         ("B".toList, RS.SourceOutcome.ok [bRS "1".toList, bRS "2".toList, bRS "3".toList] [])]).1.Perm
      [{ bRS "1".toList with value_score := RS.calculate_score (bRS "1".toList) },
       { bRS "2".toList with value_score := RS.calculate_score (bRS "2".toList) },
       { bRS "3".toList with value_score := RS.calculate_score (bRS "3".toList) }]
    ∧ lookupV (RS.fetch_all_races ⟨2024, 5, 1, 0, 0⟩
        [("A".toList, RS.SourceOutcome.raised "RuntimeError".toList "boom".toList),
         ("B".toList, RS.SourceOutcome.ok [bRS "1".toList, bRS "2".toList, bRS "3".toList] [])]).2.per_source_counts
        "A".toList = some 0 := by
  have h := C6_failure_isolation ⟨2024, 5, 1, 0, 0⟩ "RuntimeError".toList "boom".toList
    (bRS "1".toList) (bRS "2".toList) (bRS "3".toList)
    (by with_unfolding_all decide) (by with_unfolding_all decide)
    (by with_unfolding_all decide)
  exact ⟨h.1, h.2.2.1⟩
